import Mathlib

/-!
Verification development for the Quench markdown editor core
(`src/webview/main.ts`, `src/extension/QuenchEditorProvider.ts`).

The code is shallowly embedded: document text is a `List Char`, a document
is a list of lines (`List (List Char)`), the webview's module-level mutable
variables become fields of explicit state records, and every handler is a
pure function from a state and a message to a new state plus the list of
messages it posts.  JavaScript regular expressions are translated into
character-level scanners that reproduce the engine's greedy/backtracking
behaviour on the concrete patterns used by the source.
-/

namespace Quench

/-- Wire shape of a text change: delete `rangeLength` units at `rangeOffset`,
then insert `text` (shared/protocol.ts `TextChange`). -/
structure TextChange where
  rangeOffset : Nat
  rangeLength : Nat
  text : List Char
  deriving Repr, DecidableEq

/-- Messages posted by the webview to the extension (only the constructors
exercised by the embedded handlers; shared/protocol.ts `WebviewToExtensionMessage`). -/
inductive OutMsg where
  | applyEdit (requestId : String) (baseVersion : Nat) (changes : List TextChange)
  | requestDocResync
  | requestResourceUri (requestId : String) (href : List Char) (fromUri : String)
  deriving Repr, DecidableEq

/-- Messages posted by the extension to the webview (only the constructors the
embedded authority handler produces). -/
inductive ExtMsg where
  | applyEditResult (requestId : String) (applied : Bool) (version : Nat) (error : Option String)
  | docResync (text : List Char) (version : Nat) (reason : String)
  deriving Repr, DecidableEq

/-- Surface-side synchronization state: the module-level mutable variables of
`src/webview/main.ts` (`lastConfirmedVersion`, `pendingRequestIds`,
`nextRequestId`) plus the editor buffer and the banner. -/
structure SurfaceState where
  lastConfirmedVersion : Nat
  pendingRequestIds : List String
  nextRequestId : Nat
  buffer : List Char
  banner : Option String
  deriving Repr, DecidableEq

/-- main.ts `baseVersionForNextEdit`. -/
def baseVersionForNextEdit (s : SurfaceState) : Nat :=
  s.lastConfirmedVersion + s.pendingRequestIds.length

/-- main.ts `initEditor`'s update listener body for a local document change:
allocate a request id, push it on the pending queue, and post `APPLY_EDIT`
with `baseVersion = baseVersionForNextEdit() - 1` (the queue already contains
the new request when the base version is computed, hence the `- 1`). -/
def submitEdit (s : SurfaceState) (changes : List TextChange) : SurfaceState × OutMsg :=
  let requestId := toString s.nextRequestId
  let s1 : SurfaceState :=
    { s with nextRequestId := s.nextRequestId + 1
             pendingRequestIds := s.pendingRequestIds ++ [requestId] }
  (s1, OutMsg.applyEdit requestId (baseVersionForNextEdit s1 - 1) changes)

/-- Apply one `TextChange` to a buffer: delete `rangeLength` code units at
`rangeOffset`, insert `text` (the CodeMirror change primitive used by
`applyDocPatch`'s dispatch). -/
def applyTextChange (buf : List Char) (c : TextChange) : List Char :=
  buf.take c.rangeOffset ++ c.text ++ buf.drop (c.rangeOffset + c.rangeLength)

/-- Stable insertion of a change into a list sorted by descending
`rangeOffset`; together with `sortByOffsetDesc` this models the JS stable
`Array.prototype.sort` with comparator `(a, b) => b.rangeOffset - a.rangeOffset`. -/
def insertByOffsetDesc (x : TextChange) : List TextChange → List TextChange
  | [] => [x]
  | y :: ys =>
    if x.rangeOffset ≤ y.rangeOffset then y :: insertByOffsetDesc x ys
    else x :: y :: ys

/-- Stable sort by descending `rangeOffset` (main.ts `applyDocPatch`,
`[...message.changes].sort((a, b) => b.rangeOffset - a.rangeOffset)`). -/
def sortByOffsetDesc (l : List TextChange) : List TextChange :=
  l.foldl (fun acc x => insertByOffsetDesc x acc) []

/-- main.ts `applyDocPatch`.  With a non-empty pending queue the patch is
dropped, the queue cleared and a resync requested; with an empty queue the
changes are sorted by descending offset and applied, and
`lastConfirmedVersion` is set to the patch version.  (A descending-sorted
batch applied sequentially coincides with CodeMirror's simultaneous
interpretation of the dispatched change set.) -/
def applyDocPatch (s : SurfaceState) (version : Nat) (changes : List TextChange) :
    SurfaceState × List OutMsg :=
  if s.pendingRequestIds.length > 0 then
    ({ s with banner := some ("External change detected. Resyncing (pending input will be discarded).")
              pendingRequestIds := [] },
     [OutMsg.requestDocResync])
  else
    let sorted := sortByOffsetDesc changes
    ({ s with buffer := sorted.foldl applyTextChange s.buffer
              lastConfirmedVersion := version },
     [])

/-- Payload of an `APPLY_EDIT_RESULT` message. -/
structure ApplyEditResultMsg where
  requestId : String
  applied : Bool
  version : Nat
  error : Option String
  deriving Repr, DecidableEq

/-- main.ts `handleApplyEditResult`.  Empty queue: only a banner (the source
returns after `showBanner` without clearing or resyncing).  Head mismatch:
banner, clear queue, request resync.  Matching head: pop; a rejection then
clears the queue and requests a resync without touching
`lastConfirmedVersion`; a confirmation sets `lastConfirmedVersion` and hides
the banner once the queue is empty. -/
def handleApplyEditResult (s : SurfaceState) (m : ApplyEditResultMsg) :
    SurfaceState × List OutMsg :=
  match s.pendingRequestIds with
  | [] =>
    ({ s with banner := some ("Received APPLY_EDIT_RESULT but there is no pending request (requestId=" ++ m.requestId ++ ").") }, [])
  | expected :: rest =>
    if expected ≠ m.requestId then
      ({ s with banner := some ("Invalid APPLY_EDIT_RESULT order (expected=" ++ expected ++ ", got=" ++ m.requestId ++ ").")
                pendingRequestIds := [] },
       [OutMsg.requestDocResync])
    else if ¬ m.applied then
      ({ s with banner := some ("Edit was not applied: " ++ (m.error.getD "unknown"))
                pendingRequestIds := [] },
       [OutMsg.requestDocResync])
    else
      let s1 : SurfaceState := { s with pendingRequestIds := rest
                                        lastConfirmedVersion := m.version }
      (if rest.length = 0 then { s1 with banner := none } else s1, [])

/-- Authority-side state for one editor instance
(`QuenchEditorProvider`): the document text, the document version and
`pendingApplyQueue`. -/
structure AuthorityState where
  text : List Char
  version : Nat
  pendingApplyQueue : List String
  deriving Repr, DecidableEq

/-- QuenchEditorProvider.ts `handleWebviewMessage`, `APPLY_EDIT` branch.  The
asynchronous host edit primitive (`vscode.workspace.applyEdit`) is abstracted
as `hostApply`, which returns the post-edit state on success and `none` on a
host-level failure; on success the confirmation is sent later from the
document-change notification (not part of this branch). -/
def handleApplyEditMsg (hostApply : AuthorityState → List TextChange → Option AuthorityState)
    (a : AuthorityState) (requestId : String) (baseVersion : Nat) (changes : List TextChange) :
    AuthorityState × List ExtMsg :=
  if a.version ≠ baseVersion then
    (a,
     [ExtMsg.applyEditResult requestId false a.version (some ("version_mismatch")),
      ExtMsg.docResync a.text a.version ("version_mismatch")])
  else
    let a1 : AuthorityState := { a with pendingApplyQueue := a.pendingApplyQueue ++ [requestId] }
    match hostApply a1 (sortByOffsetDesc changes) with
    | some a2 => (a2, [])
    | none =>
      match a1.pendingApplyQueue with
      | [] => (a1, [])
      | rid :: rest =>
        ({ a1 with pendingApplyQueue := rest },
         [ExtMsg.applyEditResult rid false a1.version (some ("applyEdit_failed"))])

/-- Resolution-cache entry (main.ts `ResolvedImageEntry`). -/
inductive CacheEntry where
  | pending
  | ok (uri : String)
  | error (err : String)
  deriving Repr, DecidableEq

/-- Association-list lookup (models `Map.prototype.get`). -/
def mapGet (m : List (String × CacheEntry)) (k : String) : Option CacheEntry :=
  match m.find? (fun p => p.1 = k) with
  | some p => some p.2
  | none => none

/-- Association-list overwrite (models `Map.prototype.set`). -/
def mapSet (m : List (String × CacheEntry)) (k : String) (v : CacheEntry) :
    List (String × CacheEntry) :=
  if (m.find? (fun p => p.1 = k)).isSome then
    m.map (fun p => if p.1 = k then (k, v) else p)
  else
    m ++ [(k, v)]

/-- Resource-resolution state: the image cache and the requestId → cacheKey
map of in-flight requests. -/
structure ResourceState where
  resolvedImageCache : List (String × CacheEntry)
  pendingResourceRequestIds : List (String × String)
  freshCounter : Nat
  deriving Repr, DecidableEq

/-- main.ts `requestResourceUri`.  The only early return is a cache hit in
the `ok` state; a `pending` (or `error`) entry falls through to issuing a new
request.  The source derives the request id from `Date.now()` and
`Math.random()`; the embedding draws it from a counter, which preserves
everything the claims depend on (ids are opaque). -/
def requestResourceUri (st : ResourceState) (href : List Char) (fromUri : String) :
    Option String × ResourceState × List OutMsg :=
  let cacheKey := fromUri ++ "::" ++ String.mk href
  match mapGet st.resolvedImageCache cacheKey with
  | some (CacheEntry.ok uri) => (some uri, st, [])
  | _ =>
    let requestId := "res_" ++ toString st.freshCounter
    (none,
     { resolvedImageCache := mapSet st.resolvedImageCache cacheKey CacheEntry.pending
       pendingResourceRequestIds := st.pendingResourceRequestIds ++ [(requestId, cacheKey)]
       freshCounter := st.freshCounter + 1 },
     [OutMsg.requestResourceUri requestId href fromUri])

/-- Number of `REQUEST_RESOURCE_URI` messages in a posted batch. -/
def countResourceRequests (msgs : List OutMsg) : Nat :=
  (msgs.filter (fun m => match m with
    | OutMsg.requestResourceUri _ _ _ => true
    | _ => false)).length

/-! ### Document geometry

A line is a list of characters (no newline); a document is its list of
lines, joined by single newline characters — the CodeMirror `Text`
interface (`doc.lines`, `doc.line(n).from/.to/.text`, `doc.lineAt(pos)`,
`doc.length`) restated over that representation. -/

abbrev Line := List Char

abbrev Doc := List Line

/-- The backtick character (kept out of character literals). -/
def btick : Char := Char.ofNat 96

/-- The single-quote character. -/
def squote : Char := Char.ofNat 39

/-- The double-quote character. -/
def dquote : Char := Char.ofNat 34

/-- JavaScript's `\s` character class (ECMA-262 WhiteSpace ∪ LineTerminator). -/
def jsSpace (c : Char) : Bool :=
  c = ' ' || c = '\t' || c = '\n' || c = '\r' ||
  c = Char.ofNat 11 || c = Char.ofNat 12 ||
  c = Char.ofNat 0xa0 || c = Char.ofNat 0x1680 ||
  (0x2000 ≤ c.toNat && c.toNat ≤ 0x200a) ||
  c = Char.ofNat 0x2028 || c = Char.ofNat 0x2029 ||
  c = Char.ofNat 0x202f || c = Char.ofNat 0x205f ||
  c = Char.ofNat 0x3000 || c = Char.ofNat 0xfeff

/-- JavaScript's `\w` character class (`[A-Za-z0-9_]`). -/
def wordChar (c : Char) : Bool :=
  (('a' ≤ c && c ≤ 'z') || ('A' ≤ c && c ≤ 'Z') || ('0' ≤ c && c ≤ '9') || c = '_')

/-- JS `String.prototype.trim`. -/
def jsTrim (t : Line) : Line :=
  ((t.dropWhile jsSpace).reverse.dropWhile jsSpace).reverse

/-- `doc.line(n).text` (1-based). -/
def lineText (d : Doc) (n : Nat) : Line := d.getD (n - 1) []

/-- `doc.line(n).from` (1-based). -/
def lineFrom (d : Doc) (n : Nat) : Nat :=
  ((d.take (n - 1)).map (fun l => l.length + 1)).sum

/-- `doc.line(n).to` (1-based). -/
def lineTo (d : Doc) (n : Nat) : Nat := lineFrom d n + (lineText d n).length

/-- `doc.length`. -/
def docLength (d : Doc) : Nat :=
  match d with
  | [] => 0
  | _ => lineTo d d.length

/-- Helper for `lineAt`. -/
def lineAtAux : List Line → Nat → Nat → Nat
  | [], ln, _ => ln
  | t :: rest, ln, pos =>
    if pos ≤ t.length then ln
    else
      match rest with
      | [] => ln
      | _ => lineAtAux rest (ln + 1) (pos - (t.length + 1))

/-- `doc.lineAt(pos).number` (1-based; positions at a line's end boundary
belong to that line). -/
def lineAt (d : Doc) (pos : Nat) : Nat := lineAtAux d 1 pos

/-! ### Decorations, selection, settings -/

/-- The main selection range (`view.state.selection.main`), `fromPos ≤ toPos`
for real selections; a cursor is the zero-width case `fromPos = toPos`. -/
structure Sel where
  fromPos : Nat
  toPos : Nat
  deriving Repr, DecidableEq

/-- The `quench.syntaxVisibility` setting. -/
inductive Mode where
  | always
  | minimal
  | smart
  deriving Repr, DecidableEq

/-- Security settings (only the field the webview reads). -/
structure Security where
  allowExternalImages : Bool
  deriving Repr, DecidableEq

/-- Webview settings (only the fields `buildDecorations` reads). -/
structure QSettings where
  syntaxVisibility : Mode
  security : Security
  deriving Repr, DecidableEq

/-- Inline widgets emitted by the builder, identified by their constructor
arguments (main.ts `HrWidget`, `CodeBlockLangWidget`, `TaskCheckboxWidget`,
`BulletWidget`, `ImageWidget`). -/
inductive WidgetK where
  | hr
  | codeLang (lang : Option Line)
  | taskCheckbox (checked : Bool) (bracketFrom bracketTo : Nat)
  | bullet
  | image (src : Option String) (err : Option String) (href : Line)
      (width height : Option Nat)
  deriving Repr, DecidableEq

/-- A decoration: line styling, a styled mark over a range, a replaced
(hidden) range, or a point widget with a side. -/
inductive Deco where
  | lineCls (pos : Nat) (cls : String)
  | mark (lo hi : Nat) (cls : String)
  | repl (lo hi : Nat)
  | widget (pos : Nat) (w : WidgetK) (side : Int)
  deriving Repr, DecidableEq

/-- main.ts `buildDecorations`'s `selectionOverlaps(from, to)`:
`!(to <= sel.from || from >= sel.to)`. -/
def selectionOverlaps (sel : Sel) (lo hi : Nat) : Bool :=
  !(decide (hi ≤ sel.fromPos) || decide (lo ≥ sel.toPos))

/-- main.ts `clampToDoc`. -/
def clampToDoc (d : Doc) (pos : Nat) : Nat :=
  Nat.max 0 (Nat.min (docLength d) pos)

/-- The class string `dimSyntax` attaches for a given mode
("always" appends nothing, "minimal" always dims, "smart" dims when the
selection does not overlap). -/
def dimCls (mode : Mode) (sel : Sel) (lo hi : Nat) : String :=
  match mode with
  | Mode.minimal => "qm-syntax qm-syntax-dim"
  | Mode.always => "qm-syntax"
  | Mode.smart =>
    if !(selectionOverlaps sel lo hi) then "qm-syntax qm-syntax-dim" else "qm-syntax"

/-- main.ts `buildDecorations`'s `dimSyntax`. -/
def dimSyntax (mode : Mode) (sel : Sel) (lo hi : Nat) : List Deco :=
  if lo ≥ hi then [] else [Deco.mark lo hi (dimCls mode sel lo hi)]

/-- main.ts `buildDecorations`'s `addMark`. -/
def addMark (lo hi : Nat) (cls : String) : List Deco :=
  if lo ≥ hi then [] else [Deco.mark lo hi cls]

/-! ### Line-level parsers (the regexes of `buildDecorations`) -/

/-- The `(?:>\s*)+` part of the quote-marker regex: consume greedy runs of
`>` followed by whitespace while the next character is another `>`.
Assumes the head of the input is `>`. -/
def quoteRuns : Nat → Line → Line × Line
  | 0, t => ([], t)
  | fuel + 1, t =>
    match t with
    | [] => ([], t)
    | c :: rest =>
      if c = '>' then
        let sp := rest.takeWhile jsSpace
        let r := rest.dropWhile jsSpace
        match r with
        | c2 :: _ =>
          if c2 = '>' then
            let pr := quoteRuns fuel r
            ('>' :: (sp ++ pr.1), pr.2)
          else ('>' :: sp, r)
        | [] => ('>' :: sp, [])
      else ([], t)

/-- `/^(\s*(?:>\s*)+)(.*)$/` — returns (quote marker run, remaining text). -/
def quoteMatch (t : Line) : Option (Line × Line) :=
  let ws := t.takeWhile jsSpace
  let r := t.dropWhile jsSpace
  match r with
  | c :: _ =>
    if c = '>' then
      let pr := quoteRuns r.length r
      some (ws ++ pr.1, pr.2)
    else none
  | [] => none

/-- `/^\s*((?:-{3,})|(?:\*{3,})|(?:_{3,}))\s*$/` applied to
`text.replace(/\s+/g, "")`. -/
def hrMatch (text : Line) : Bool :=
  let s := text.filter (fun c => !(jsSpace c))
  decide (s.length ≥ 3) &&
    (s.all (fun c => c = '-') || s.all (fun c => c = '*') || s.all (fun c => c = '_'))

/-- The `[A-Za-z0-9_+-]` class of the fence language tag. -/
def fenceTagChar (c : Char) : Bool :=
  (('a' ≤ c && c ≤ 'z') || ('A' ≤ c && c ≤ 'Z') || ('0' ≤ c && c ≤ '9') ||
   c = '_' || c = '+' || c = '-')

/-- `/^\s*(```+|~~~+)\s*([A-Za-z0-9_+-]+)?\s*$/` — returns
(fence char, fence run length, optional language tag). -/
def openFence (t : Line) : Option (Char × Nat × Option Line) :=
  let r1 := t.dropWhile jsSpace
  match r1 with
  | c :: _ =>
    if c = btick || c = '~' then
      let run := r1.takeWhile (fun x => x = c)
      if run.length ≥ 3 then
        let r2 := (r1.dropWhile (fun x => x = c)).dropWhile jsSpace
        let tag := r2.takeWhile fenceTagChar
        let r3 := (r2.dropWhile fenceTagChar).dropWhile jsSpace
        if r3 = [] then
          some (if c = '~' then '~' else btick, run.length,
                if tag = [] then none else some tag)
        else none
      else none
    else none
  | [] => none

/-- `/^\s*(```+|~~~+)\s*$/` — the closing-fence line pattern. -/
def closeFence (t : Line) : Option (Char × Nat) :=
  let r1 := t.dropWhile jsSpace
  match r1 with
  | c :: _ =>
    if c = btick || c = '~' then
      let run := r1.takeWhile (fun x => x = c)
      if run.length ≥ 3 && decide (((r1.dropWhile (fun x => x = c)).dropWhile jsSpace) = []) then
        some (if c = '~' then '~' else btick, run.length)
      else none
    else none
  | [] => none

/-- Does `t` close a fence opened with character `c` and run length `len`
(same character, run at least as long — main.ts lines 337-343)? -/
def closesFence (t : Line) (c : Char) (len : Nat) : Bool :=
  match closeFence t with
  | some (c2, l2) => c2 = c && decide (l2 ≥ len)
  | none => false

/-- main.ts `ParsedFencedCodeBlockRange`. -/
structure ParsedFencedCodeBlockRange where
  startLineNo : Nat
  endLineNo : Nat
  fenceChar : Char
  fenceLen : Nat
  lang : Option Line
  deriving Repr, DecidableEq

/-- The `for (let ln = startLineNumber + 1; ...)` search for the first
closing fence; `lines` is the tail of the document after the opening line,
`ln` the line number of its head. -/
def findCloseAux (c : Char) (len : Nat) : List Line → Nat → Option Nat
  | [], _ => none
  | t :: rest, ln =>
    if closesFence t c len then some ln
    else findCloseAux c len rest (ln + 1)

/-- main.ts `parseFencedCodeBlockRangeAtLine`. -/
def parseFencedCodeBlockRangeAtLine (d : Doc) (startLineNumber : Nat) :
    Option ParsedFencedCodeBlockRange :=
  if startLineNumber < 1 ∨ startLineNumber > d.length then none
  else
    match openFence (lineText d startLineNumber) with
    | none => none
    | some (c, len, tag) =>
      match findCloseAux c len (d.drop startLineNumber) (startLineNumber + 1) with
      | none => none
      | some endLn => some ⟨startLineNumber, endLn, c, len, tag⟩

/-- main.ts `ParsedTableRange`. -/
structure ParsedTableRange where
  headerLineNo : Nat
  alignLineNo : Nat
  endLineNo : Nat
  deriving Repr, DecidableEq

/-- JS `String.prototype.split("|")`. -/
def splitOnPipe : Line → List Line
  | [] => [[]]
  | c :: rest =>
    let r := splitOnPipe rest
    if c = '|' then [] :: r
    else
      match r with
      | h :: tl => (c :: h) :: tl
      | [] => [[c]]

/-- main.ts `splitAlignRow`: trim, strip one leading and one trailing `|`,
split on `|`, trim each cell and remove all whitespace. -/
def splitAlignRow (line : Line) : List Line :=
  let s0 := jsTrim line
  let s1 := if s0.head? = some '|' then s0.drop 1 else s0
  let s2 := if s1.getLast? = some '|' then s1.dropLast else s1
  (splitOnPipe s2).map (fun c => (jsTrim c).filter (fun ch => !(jsSpace ch)))

/-- The alignment-cell pattern `/^:?-{3,}:?$/`. -/
def alignCellOk (c : Line) : Bool :=
  let c1 := if c.head? = some ':' then c.drop 1 else c
  let dashes := c1.takeWhile (fun x => x = '-')
  let rest := c1.drop dashes.length
  decide (dashes.length ≥ 3) && (decide (rest = []) || decide (rest = [':']))

/-- The `for (let ln = alignLineNo + 1; ...)` extension of the table region
over contiguous non-blank lines containing a pipe. -/
def tableEndAux : List Line → Nat → Nat → Nat
  | [], _, acc => acc
  | t :: rest, ln, acc =>
    let tt := jsTrim t
    if tt.length = 0 then acc
    else if !(tt.contains '|') then acc
    else tableEndAux rest (ln + 1) ln

/-- main.ts `parseGfmTableRangeAtLine`. -/
def parseGfmTableRangeAtLine (d : Doc) (startLineNumber : Nat) :
    Option ParsedTableRange :=
  if startLineNumber < 1 ∨ startLineNumber > d.length then none
  else
    let headerText := lineText d startLineNumber
    let alignLineNo := startLineNumber + 1
    if alignLineNo > d.length then none
    else
      let alignText := lineText d alignLineNo
      if !(headerText.contains '|') then none
      else if !(alignText.contains '|') then none
      else
        let alignCells := splitAlignRow alignText
        if alignCells.length = 0 then none
        else if !(alignCells.all alignCellOk) then none
        else
          some ⟨startLineNumber, alignLineNo,
                tableEndAux (d.drop alignLineNo) (alignLineNo + 1) alignLineNo⟩

/-- List markers `-`, `*`, `+`. -/
def isMarker (c : Char) : Bool := c = '-' || c = '*' || c = '+'

/-- Result of `/^(\s*)([-*+])(\s+)\[([ xX])\](\s+)/`. -/
structure TaskMatch where
  indentLen : Nat
  markerSpacesLen : Nat
  checked : Bool
  afterSpacesLen : Nat
  deriving Repr, DecidableEq

/-- `/^(\s*)([-*+])(\s+)\[([ xX])\](\s+)/` (`checked` is the lower-cased
bracket content being `x`). -/
def taskMatch (t : Line) : Option TaskMatch :=
  let ind := t.takeWhile jsSpace
  match t.drop ind.length with
  | c :: r1 =>
    if isMarker c then
      let sp1 := r1.takeWhile jsSpace
      if sp1.length ≥ 1 then
        match r1.drop sp1.length with
        | '[' :: c2 :: ']' :: r2 =>
          if c2 = ' ' || c2 = 'x' || c2 = 'X' then
            let sp2 := r2.takeWhile jsSpace
            if sp2.length ≥ 1 then
              some ⟨ind.length, sp1.length, c2 = 'x' || c2 = 'X', sp2.length⟩
            else none
          else none
        | _ => none
      else none
    else none
  | [] => none

/-- Does the text ahead match the lookahead `\[[ xX]\]`? -/
def taskAhead (t : Line) : Bool :=
  match t with
  | '[' :: c :: ']' :: _ => c = ' ' || c = 'x' || c = 'X'
  | _ => false

/-- Result of `/^(\s*)([-*+])(\s+)(?!\[[ xX]\])/`. -/
structure BulletMatch where
  indentLen : Nat
  spaceLen : Nat
  deriving Repr, DecidableEq

/-- `/^(\s*)([-*+])(\s+)(?!\[[ xX]\])/`.  With the greedy `\s+` the engine
first tries the full space run; if the negative lookahead then fails it
backtracks one space (any shorter run leaves a space ahead, which trivially
satisfies the lookahead), so a task marker with a two-or-more-space run also
matches the bullet rule with one space less. -/
def bulletMatch (t : Line) : Option BulletMatch :=
  let ind := t.takeWhile jsSpace
  match t.drop ind.length with
  | c :: r1 =>
    if isMarker c then
      let sp := r1.takeWhile jsSpace
      if sp.length ≥ 1 then
        if !(taskAhead (r1.drop sp.length)) then some ⟨ind.length, sp.length⟩
        else if sp.length ≥ 2 then some ⟨ind.length, sp.length - 1⟩
        else none
      else none
    else none
  | [] => none

/-- `/^(#{1,6})(\s+)(.*)$/` — returns (hash run length, whitespace run
length); a run of 7+ hashes never matches. -/
def headingMatch (t : Line) : Option (Nat × Nat) :=
  let hashes := t.takeWhile (fun c => c = '#')
  if 1 ≤ hashes.length ∧ hashes.length ≤ 6 then
    let ws := (t.drop hashes.length).takeWhile jsSpace
    if ws.length ≥ 1 then some (hashes.length, ws.length) else none
  else none

/-- Setext underline `/^(=+|-+)\s*$/` on the next line — returns the heading
level (1 for `=`, 2 for `-`). -/
def setextMatch (t : Line) : Option Nat :=
  match t with
  | c :: _ =>
    if c = '=' ∨ c = '-' then
      let run := t.takeWhile (fun x => x = c)
      if (t.drop run.length).all jsSpace then some (if c = '=' then 1 else 2)
      else none
    else none
  | [] => none

/-! ### Inline scanners (`matchAll` loops)

Each scanner walks the line once, attempting its pattern at every position
and jumping past a successful match, exactly as the non-sticky global regex
engine does; matches are reported as start offsets into the line plus the
captured lengths/contents the emission code reads. -/

/-- Matches of ``/`([^`]+)`/g`` as (start, full length). -/
def inlineCodeMatches : Nat → Line → Nat → List (Nat × Nat)
  | 0, _, _ => []
  | _ + 1, [], _ => []
  | fuel + 1, c :: rest, i =>
    if c = btick then
      let inner := rest.takeWhile (fun x => x ≠ btick)
      match inner, rest.drop inner.length with
      | _ :: _, _ :: r3 =>
        (i, inner.length + 2) :: inlineCodeMatches fuel r3 (i + inner.length + 2)
      | _, _ => inlineCodeMatches fuel rest (i + 1)
    else inlineCodeMatches fuel rest (i + 1)

/-- Matches of `/\*\*([^\*]+)\*\*/g` as (start, full length). -/
def boldMatches : Nat → Line → Nat → List (Nat × Nat)
  | 0, _, _ => []
  | _ + 1, [], _ => []
  | fuel + 1, c :: rest, i =>
    if c = '*' then
      match rest with
      | c2 :: rest2 =>
        if c2 = '*' then
          let inner := rest2.takeWhile (fun x => x ≠ '*')
          match inner, rest2.drop inner.length with
          | _ :: _, _ :: c4 :: r3 =>
            if c4 = '*' then
              (i, inner.length + 4) :: boldMatches fuel r3 (i + inner.length + 4)
            else boldMatches fuel rest (i + 1)
          | _, _ => boldMatches fuel rest (i + 1)
        else boldMatches fuel rest (i + 1)
      | [] => boldMatches fuel rest (i + 1)
    else boldMatches fuel rest (i + 1)

/-- The `^\*([^\*]+)\*` alternative of the italic pattern at the current
position (prefix length 0). -/
def italicAlt1 (t : Line) : Option (Nat × Nat) :=
  match t with
  | c :: r =>
    if c = '*' then
      let inner := r.takeWhile (fun x => x ≠ '*')
      match inner, r.drop inner.length with
      | _ :: _, _ :: _ => some (0, inner.length)
      | _, _ => none
    else none
  | [] => none

/-- The `[^\*]\*([^\*]+)\*` alternative of the italic pattern at the current
position (prefix length 1). -/
def italicAlt2 (t : Line) : Option (Nat × Nat) :=
  match t with
  | c :: r =>
    if c ≠ '*' then
      match r with
      | c2 :: r2 =>
        if c2 = '*' then
          let inner := r2.takeWhile (fun x => x ≠ '*')
          match inner, r2.drop inner.length with
          | _ :: _, _ :: _ => some (1, inner.length)
          | _, _ => none
        else none
      | [] => none
    else none
  | [] => none

/-- Matches of `/(^|[^\*])\*([^\*]+)\*/g` as (start, prefix length, inner
length); the `^` alternative is only available at offset 0. -/
def italicMatches : Nat → Line → Nat → List (Nat × Nat × Nat)
  | 0, _, _ => []
  | _ + 1, [], _ => []
  | fuel + 1, c :: rest, i =>
    let attempt :=
      if i = 0 then (italicAlt1 (c :: rest)).orElse (fun _ => italicAlt2 (c :: rest))
      else italicAlt2 (c :: rest)
    match attempt with
    | some pi =>
      let full := pi.1 + 1 + pi.2 + 1
      (i, pi.1, pi.2) :: italicMatches fuel ((c :: rest).drop full) (i + full)
    | none => italicMatches fuel rest (i + 1)

/-- A link/image match of `/(!?)\[([^\]]*)\]\(([^)]+)\)/g`. -/
structure LinkMatch where
  start : Nat
  bang : Bool
  label : Line
  dest : Line
  deriving Repr, DecidableEq

/-- Attempt the link pattern at the current position. -/
def linkTry (t : Line) : Option (Bool × Line × Line) :=
  let bt : Bool × Line :=
    match t with
    | '!' :: r => (true, r)
    | _ => (false, t)
  match bt.2 with
  | '[' :: r1 =>
    let label := r1.takeWhile (fun x => x ≠ ']')
    match r1.drop label.length with
    | ']' :: '(' :: r2 =>
      let dest := r2.takeWhile (fun x => x ≠ ')')
      match dest, r2.drop dest.length with
      | _ :: _, ')' :: _ => some (bt.1, label, dest)
      | _, _ => none
    | _ => none
  | _ => none

/-- Matches of `/(!?)\[([^\]]*)\]\(([^)]+)\)/g`. -/
def linkMatches : Nat → Line → Nat → List LinkMatch
  | 0, _, _ => []
  | _ + 1, [], _ => []
  | fuel + 1, c :: rest, i =>
    match linkTry (c :: rest) with
    | some bld =>
      let full := (if bld.1 then 1 else 0) + 1 + bld.2.1.length + 2 + bld.2.2.length + 1
      ⟨i, bld.1, bld.2.1, bld.2.2⟩ :: linkMatches fuel ((c :: rest).drop full) (i + full)
    | none => linkMatches fuel rest (i + 1)

/-- Attempt `/<img\b[^>]*>/i` at the current position, returning the raw
matched tag text. -/
def imgTry (t : Line) : Option Line :=
  match t with
  | '<' :: c1 :: c2 :: c3 :: r =>
    if (c1.toLower = 'i') && (c2.toLower = 'm') && (c3.toLower = 'g') then
      match r with
      | c4 :: _ =>
        if wordChar c4 then none
        else
          let body := r.takeWhile (fun x => x ≠ '>')
          match r.drop body.length with
          | '>' :: _ => some ('<' :: c1 :: c2 :: c3 :: (body ++ ['>']))
          | _ => none
      | [] => none
    else none
  | _ => none

/-- Matches of `/<img\b[^>]*>/gi` as (start, raw tag text). -/
def imgMatches : Nat → Line → Nat → List (Nat × Line)
  | 0, _, _ => []
  | _ + 1, [], _ => []
  | fuel + 1, c :: rest, i =>
    match imgTry (c :: rest) with
    | some raw =>
      (i, raw) :: imgMatches fuel ((c :: rest).drop raw.length) (i + raw.length)
    | none => imgMatches fuel rest (i + 1)

/-- Case-insensitive prefix test (`pat` given in lower case). -/
def startsWithCi : Line → Line → Bool
  | [], _ => true
  | _ :: _, [] => false
  | p :: ps, c :: cs => (c.toLower = p) && startsWithCi ps cs

/-- Attempt `` `${name}\s*=\s*("([^"]*)"|'([^']*)'|([^\s>]+))` `` at the
current position (value alternatives tried in source order: double-quoted,
single-quoted, bare token). -/
def attrTry (nameL : Line) (t : Line) : Option Line :=
  if startsWithCi nameL t then
    let r1 := (t.drop nameL.length).dropWhile jsSpace
    match r1 with
    | '=' :: r2 =>
      let r3 := r2.dropWhile jsSpace
      let bare : Option Line :=
        let bv := r3.takeWhile (fun c => !(jsSpace c) && c ≠ '>')
        if bv.length ≥ 1 then some bv else none
      match r3 with
      | c :: r4 =>
        if c = dquote then
          let v := r4.takeWhile (fun x => x ≠ dquote)
          match r4.drop v.length with
          | _ :: _ => some v
          | [] => bare
        else if c = squote then
          let v := r4.takeWhile (fun x => x ≠ squote)
          match r4.drop v.length with
          | _ :: _ => some v
          | [] => bare
        else bare
      | [] => none
    | _ => none
  else none

/-- main.ts `parseHtmlImgTag`'s `readAttr`: first position where the
attribute pattern matches, value trimmed. -/
def readAttrAux (nameL : Line) : Nat → Line → Option Line
  | 0, _ => none
  | fuel + 1, t =>
    match attrTry nameL t with
    | some v => some v
    | none =>
      match t with
      | [] => none
      | _ :: rest => readAttrAux nameL fuel rest

/-- `readAttr` over the whole tag text. -/
def readAttr (nameL : Line) (t : Line) : Option Line :=
  match readAttrAux nameL (t.length + 1) t with
  | some v => some (jsTrim v)
  | none => none

/-- Parsed `<img>` attributes. -/
structure ImgInfo where
  src : Line
  alt : Option Line
  width : Option Nat
  height : Option Nat
  deriving Repr, DecidableEq

/-- `/^\d+$/`. -/
def allDigits (t : Line) : Bool :=
  decide (t.length ≥ 1) && t.all (fun c => '0' ≤ c && c ≤ '9')

/-- Decimal digits to a number (`Number(...)` on an all-digit string). -/
def digitsToNat (t : Line) : Nat :=
  t.foldl (fun a c => a * 10 + (c.toNat - 48)) 0

/-- main.ts `parseHtmlImgTag`. -/
def parseHtmlImgTag (tagText : Line) : Option ImgInfo :=
  let t := jsTrim tagText
  let okStart : Bool :=
    match t with
    | '<' :: c1 :: c2 :: c3 :: r =>
      (c1.toLower = 'i') && (c2.toLower = 'm') && (c3.toLower = 'g') &&
        (match r with
         | c4 :: _ => !(wordChar c4)
         | [] => true)
    | _ => false
  if okStart then
    match readAttr ['s', 'r', 'c'] t with
    | none => none
    | some src =>
      if src = [] then none
      else
        let altRaw := readAttr ['a', 'l', 't'] t
        let alt : Option Line :=
          match altRaw with
          | some a => if a = [] then none else some a
          | none => none
        let widthRaw := readAttr ['w', 'i', 'd', 't', 'h'] t
        let heightRaw := readAttr ['h', 'e', 'i', 'g', 'h', 't'] t
        let width : Option Nat :=
          match widthRaw with
          | some w => if allDigits w then some (digitsToNat w) else none
          | none => none
        let height : Option Nat :=
          match heightRaw with
          | some h => if allDigits h then some (digitsToNat h) else none
          | none => none
        some ⟨src, alt, width, height⟩
  else none

/-- `/^https?:\/\//i`. -/
def isExternalHref (href : Line) : Bool :=
  if startsWithCi ['h', 't', 't', 'p'] href then
    let r := href.drop 4
    let r2 :=
      match r with
      | c :: rest => if c.toLower = 's' then rest else r
      | [] => r
    match r2 with
    | a :: b :: c :: _ => (a = ':') && (b = '/') && (c = '/')
    | _ => false
  else false

/-! ### Decoration emission, rule by rule (`buildDecorations` body) -/

/-- Quote-marker decorations (main.ts lines 491-501; both branches of the
source's overlap conditional dim the marker identically, so the conditional
is kept but is vacuous). -/
def quoteDecos (mode : Mode) (sel : Sel) (d : Doc) (lf baseOffset depth : Nat) :
    List Deco :=
  let cls := "md-quote-line md-quote-depth-" ++ toString (Nat.min 6 (Nat.max 1 depth))
  [Deco.lineCls lf cls] ++
    (if !(selectionOverlaps sel lf (clampToDoc d (baseOffset + 1))) then
      dimSyntax mode sel lf baseOffset
    else
      dimSyntax mode sel lf baseOffset)

/-- Horizontal-rule decorations (line class, replaced range, rule widget). -/
def hrDecos (lf lt baseOffset : Nat) : List Deco :=
  [Deco.lineCls lf ("md-hr-line"), Deco.repl baseOffset lt,
   Deco.widget baseOffset WidgetK.hr 1]

/-- Decorations for one line of a non-overlapped fenced code block. -/
def fenceLineDecos (d : Doc) (block : ParsedFencedCodeBlockRange) (ln : Nat) :
    List Deco :=
  let lf := lineFrom d ln
  let lt := lineTo d ln
  let isFence := ln = block.startLineNo ∨ ln = block.endLineNo
  let isFirstBody := ln = block.startLineNo + 1
  let isLastBody := ln = block.endLineNo - 1
  let cls := "md-codeblock-line" ++
    (if isFence then " md-codeblock-fence" else "") ++
    (if isFirstBody then " md-codeblock-first" else "") ++
    (if isLastBody then " md-codeblock-last" else "")
  [Deco.lineCls lf cls] ++
    (if isFence then
      [Deco.repl lf lt] ++
        (if ln = block.startLineNo ∧ block.lang.isSome then
          [Deco.widget lf (WidgetK.codeLang block.lang) 1]
        else [])
    else [])

/-- Decorations for a non-overlapped fenced code block. -/
def fenceDecos (d : Doc) (block : ParsedFencedCodeBlockRange) : List Deco :=
  ((List.range' block.startLineNo (block.endLineNo - block.startLineNo + 1)).map
    (fenceLineDecos d block)).flatten

/-- The line class of one table row. -/
def tableRowCls (table : ParsedTableRange) (ln : Nat) : String :=
  if ln = table.headerLineNo then "md-table-row md-table-header md-table-first"
  else if ln = table.alignLineNo then "md-table-row md-table-sep"
  else
    let rowIndex := ln - (table.alignLineNo + 1)
    let zebra := if rowIndex % 2 = 1 then " md-table-zebra" else ""
    let last := if ln = table.endLineNo then " md-table-last" else ""
    "md-table-row md-table-body" ++ zebra ++ last

/-- Dim every pipe character of a table line. -/
def pipeDims (mode : Mode) (sel : Sel) (lf : Nat) (text : Line) : List Deco :=
  ((List.range text.length).map (fun i =>
    if text.getD i ' ' = '|' then dimSyntax mode sel (lf + i) (lf + i + 1)
    else [])).flatten

/-- Decorations for one line of a non-overlapped table region. -/
def tableLineDecos (mode : Mode) (sel : Sel) (d : Doc) (table : ParsedTableRange)
    (ln : Nat) : List Deco :=
  [Deco.lineCls (lineFrom d ln) (tableRowCls table ln)] ++
    pipeDims mode sel (lineFrom d ln) (lineText d ln)

/-- Decorations for a non-overlapped table region (line classes and dimmed
pipes only — the source deliberately does not replace table text). -/
def tableDecos (mode : Mode) (sel : Sel) (d : Doc) (table : ParsedTableRange) :
    List Deco :=
  ((List.range' table.headerLineNo (table.endLineNo - table.headerLineNo + 1)).map
    (tableLineDecos mode sel d table)).flatten

/-- Task-list decorations (main.ts lines 604-637). -/
def taskDecos (mode : Mode) (sel : Sel) (d : Doc) (baseOffset : Nat)
    (m : TaskMatch) : List Deco :=
  let markerFrom := baseOffset + m.indentLen
  let bracketFrom := markerFrom + 1 + m.markerSpacesLen
  let bracketTo := bracketFrom + 3
  let afterBracketTo := bracketTo + m.afterSpacesLen
  if !(selectionOverlaps sel markerFrom (Nat.min (docLength d) afterBracketTo)) then
    [Deco.repl markerFrom bracketFrom,
     Deco.repl bracketFrom bracketTo,
     Deco.repl bracketTo afterBracketTo,
     Deco.widget markerFrom (WidgetK.taskCheckbox m.checked bracketFrom bracketTo) 1]
  else
    dimSyntax mode sel markerFrom (markerFrom + 1) ++
    dimSyntax mode sel bracketFrom (bracketFrom + 1) ++
    dimSyntax mode sel (bracketTo - 1) bracketTo

/-- Bullet decorations (main.ts lines 639-666). -/
def bulletDecos (mode : Mode) (sel : Sel) (baseOffset : Nat) (m : BulletMatch) :
    List Deco :=
  let markerFrom := baseOffset + m.indentLen
  let markerTo := markerFrom + 1
  let markerRegionEnd := markerTo + m.spaceLen
  if !(selectionOverlaps sel markerFrom markerRegionEnd) then
    [Deco.repl markerFrom markerTo, Deco.widget markerFrom WidgetK.bullet 1] ++
      dimSyntax mode sel markerFrom markerTo
  else
    dimSyntax mode sel markerFrom markerTo

/-- ATX-heading decorations (main.ts lines 668-676). -/
def headingDecos (mode : Mode) (sel : Sel) (lf lt baseOffset hashes ws : Nat) :
    List Deco :=
  [Deco.lineCls lf ("md-heading-line md-h" ++ toString hashes)] ++
    dimSyntax mode sel baseOffset (baseOffset + hashes) ++
    dimSyntax mode sel (baseOffset + hashes) (baseOffset + hashes + ws) ++
    addMark (baseOffset + hashes + ws) lt ("md-heading md-h" ++ toString hashes)

/-- Setext-heading decorations (main.ts lines 677-692). -/
def setextDecos (mode : Mode) (sel : Sel) (d : Doc) (lf lt baseOffset level : Nat)
    (nextFrom nextTo : Nat) : List Deco :=
  [Deco.lineCls lf ("md-heading-line md-h" ++ toString level)] ++
    addMark baseOffset lt ("md-heading md-h" ++ toString level) ++
    (if !(selectionOverlaps sel nextFrom (Nat.min (docLength d) (nextTo + 1))) then
      [Deco.repl nextFrom nextTo]
    else
      dimSyntax mode sel nextFrom nextTo)

/-- Decorations for one inline-code match (main.ts lines 694-718): the inner
text is marked, and the delimiters are dimmed while the selection overlaps
the span but replaced (hidden) otherwise. -/
def emitInlineCode (mode : Mode) (sel : Sel) (baseOffset : Nat) (m : Nat × Nat) :
    List Deco :=
  let lo := baseOffset + m.1
  let hi := lo + m.2
  let openTickFrom := lo
  let openTickTo := lo + 1
  let closeTickFrom := hi - 1
  let closeTickTo := hi
  addMark openTickTo closeTickFrom ("md-inline-code") ++
    (if selectionOverlaps sel lo hi then
      dimSyntax mode sel openTickFrom openTickTo ++
        dimSyntax mode sel closeTickFrom closeTickTo
    else
      [Deco.repl openTickFrom openTickTo, Deco.repl closeTickFrom closeTickTo])

/-- All inline-code decorations of a line. -/
def inlineCodeDecos (mode : Mode) (sel : Sel) (text : Line) (baseOffset : Nat) :
    List Deco :=
  ((inlineCodeMatches text.length text 0).map (emitInlineCode mode sel baseOffset)).flatten

/-- Decorations for one bold match (main.ts lines 720-728). -/
def emitBold (mode : Mode) (sel : Sel) (baseOffset : Nat) (m : Nat × Nat) :
    List Deco :=
  dimSyntax mode sel (baseOffset + m.1) (baseOffset + m.1 + 2) ++
    addMark (baseOffset + m.1 + 2) (baseOffset + m.1 + m.2 - 2) ("md-bold") ++
    dimSyntax mode sel (baseOffset + m.1 + m.2 - 2) (baseOffset + m.1 + m.2)

/-- All bold decorations of a line. -/
def boldDecos (mode : Mode) (sel : Sel) (text : Line) (baseOffset : Nat) :
    List Deco :=
  ((boldMatches text.length text 0).map (emitBold mode sel baseOffset)).flatten

/-- Decorations for one italic match (main.ts lines 730-740). -/
def emitItalic (mode : Mode) (sel : Sel) (baseOffset : Nat) (m : Nat × Nat × Nat) :
    List Deco :=
  let vopen := baseOffset + m.1 + m.2.1
  dimSyntax mode sel vopen (vopen + 1) ++
    addMark (vopen + 1) (vopen + 1 + m.2.2) ("md-italic") ++
    dimSyntax mode sel (vopen + 1 + m.2.2) (vopen + 1 + m.2.2 + 1)

/-- All italic decorations of a line. -/
def italicDecos (mode : Mode) (sel : Sel) (text : Line) (baseOffset : Nat) :
    List Deco :=
  ((italicMatches text.length text 0).map (emitItalic mode sel baseOffset)).flatten

/-- Decorations, cache effect and posted messages for one link/image match
(main.ts lines 742-779): delimiters dimmed, label and destination marked;
an image additionally consults the resolution cache (requesting when neither
resolved nor errored) and emits an image widget after the closing paren,
except when the destination is external and external images are disabled. -/
def emitLink (settingsO : Option QSettings) (mode : Mode) (sel : Sel)
    (docUri : String) (baseOffset : Nat) (st : ResourceState) (m : LinkMatch) :
    List Deco × ResourceState × List OutMsg :=
  let openBracket := baseOffset + m.start + (if m.bang then 1 else 0)
  let base :=
    (if m.bang then dimSyntax mode sel (baseOffset + m.start) (baseOffset + m.start + 1)
     else []) ++
    dimSyntax mode sel openBracket (openBracket + 1) ++
    addMark (openBracket + 1) (openBracket + 1 + m.label.length) ("md-link") ++
    dimSyntax mode sel (openBracket + 1 + m.label.length)
      (openBracket + 1 + m.label.length + 2) ++
    addMark (openBracket + 1 + m.label.length + 2)
      (openBracket + 1 + m.label.length + 2 + m.dest.length) ("md-link-destination") ++
    dimSyntax mode sel (openBracket + 1 + m.label.length + 2 + m.dest.length)
      (openBracket + 1 + m.label.length + 2 + m.dest.length + 1)
  match settingsO with
  | some settings =>
    if m.bang then
      if isExternalHref m.dest && !settings.security.allowExternalImages then
        (base, st, [])
      else
        let cacheKey := docUri ++ "::" ++ String.mk m.dest
        let cached := mapGet st.resolvedImageCache cacheKey
        let resolved : Option String :=
          match cached with
          | some (CacheEntry.ok uri) => some uri
          | _ => none
        let errv : Option String :=
          match cached with
          | some (CacheEntry.error e) => some e
          | _ => none
        let stm : ResourceState × List OutMsg :=
          if resolved = none ∧ errv = none then
            let r := requestResourceUri st m.dest docUri
            (r.2.1, r.2.2)
          else (st, [])
        let widgetPos := openBracket + 1 + m.label.length + 2 + m.dest.length + 1
        (base ++ [Deco.widget widgetPos (WidgetK.image resolved errv m.dest none none) 1],
         stm.1, stm.2)
    else (base, st, [])
  | none => (base, st, [])

/-- Fold `emitLink` over all link matches, threading the resource state. -/
def emitLinks (settingsO : Option QSettings) (mode : Mode) (sel : Sel)
    (docUri : String) (baseOffset : Nat) (st : ResourceState) :
    List LinkMatch → List Deco × ResourceState × List OutMsg
  | [] => ([], st, [])
  | m :: rest =>
    let r1 := emitLink settingsO mode sel docUri baseOffset st m
    let r2 := emitLinks settingsO mode sel docUri baseOffset r1.2.1 rest
    (r1.1 ++ r2.1, r2.2.1, r1.2.2 ++ r2.2.2)

/-- Decorations, cache effect and posted messages for one raw `<img>` match
(main.ts lines 781-816). -/
def emitImgTag (settingsO : Option QSettings) (docUri : String)
    (baseOffset : Nat) (st : ResourceState) (m : Nat × Line) :
    List Deco × ResourceState × List OutMsg :=
  match parseHtmlImgTag m.2 with
  | none => ([], st, [])
  | some info =>
    match settingsO with
    | some settings =>
      if isExternalHref info.src && !settings.security.allowExternalImages then
        ([], st, [])
      else
        let cacheKey := docUri ++ "::" ++ String.mk info.src
        let cached := mapGet st.resolvedImageCache cacheKey
        let resolved : Option String :=
          match cached with
          | some (CacheEntry.ok uri) => some uri
          | _ => none
        let errv : Option String :=
          match cached with
          | some (CacheEntry.error e) => some e
          | _ => none
        let stm : ResourceState × List OutMsg :=
          if resolved = none ∧ errv = none then
            let r := requestResourceUri st info.src docUri
            (r.2.1, r.2.2)
          else (st, [])
        let widgetPos := baseOffset + m.1 + m.2.length
        ([Deco.widget widgetPos
            (WidgetK.image resolved errv info.src info.width info.height) 1],
         stm.1, stm.2)
    | none => ([], st, [])

/-- Fold `emitImgTag` over all `<img>` matches, threading the resource state. -/
def emitImgTags (settingsO : Option QSettings) (docUri : String)
    (baseOffset : Nat) (st : ResourceState) :
    List (Nat × Line) → List Deco × ResourceState × List OutMsg
  | [] => ([], st, [])
  | m :: rest =>
    let r1 := emitImgTag settingsO docUri baseOffset st m
    let r2 := emitImgTags settingsO docUri baseOffset r1.2.1 rest
    (r1.1 ++ r2.1, r2.2.1, r1.2.2 ++ r2.2.2)

/-- The rules a line falls through to when it is neither a non-overlapped
horizontal rule, fenced code block nor table: task list, bullet, ATX
heading, setext heading, inline code, bold, italic, links/images, raw
`<img>` tags — emitted in source order. -/
def restRules (settingsO : Option QSettings) (mode : Mode) (sel : Sel)
    (docUri : String) (d : Doc) (n lf lt baseOffset : Nat) (text : Line)
    (st : ResourceState) : List Deco × ResourceState × List OutMsg :=
  let taskD :=
    match taskMatch text with
    | some tm => taskDecos mode sel d baseOffset tm
    | none => []
  let bulletD :=
    match bulletMatch text with
    | some bm => bulletDecos mode sel baseOffset bm
    | none => []
  let hm := headingMatch text
  let headD :=
    match hm with
    | some hw => headingDecos mode sel lf lt baseOffset hw.1 hw.2
    | none => []
  let setextD :=
    if hm = none ∧ n < d.length then
      match setextMatch (lineText d (n + 1)) with
      | some level =>
        if (jsTrim text).length > 0 then
          setextDecos mode sel d lf lt baseOffset level
            (lineFrom d (n + 1)) (lineTo d (n + 1))
        else []
      | none => []
    else []
  let icD := inlineCodeDecos mode sel text baseOffset
  let boldD := boldDecos mode sel text baseOffset
  let italD := italicDecos mode sel text baseOffset
  let linkR := emitLinks settingsO mode sel docUri baseOffset st
    (linkMatches text.length text 0)
  let imgR := emitImgTags settingsO docUri baseOffset linkR.2.1
    (imgMatches text.length text 0)
  (taskD ++ bulletD ++ headD ++ setextD ++ icD ++ boldD ++ italD ++ linkR.1 ++ imgR.1,
   imgR.2.1, linkR.2.2 ++ imgR.2.2)

/-- One iteration of the `while (pos <= r.to)` loop body of
`buildDecorations`: process the line at `n`, returning its decorations, the
next scan position, the updated resource state and the posted messages.
Control flow follows the source: quote decorations first, then the three
early-`continue` block rules (horizontal rule, fenced code block, table —
the latter two suppressed inside quotes), then the fall-through rules. -/
def processLine (settingsO : Option QSettings) (mode : Mode) (sel : Sel)
    (docUri : String) (d : Doc) (n : Nat) (st : ResourceState) :
    List Deco × Nat × ResourceState × List OutMsg :=
  let lf := lineFrom d n
  let lt := lineTo d n
  let rawText := lineText d n
  let q := quoteMatch rawText
  let qpre :=
    match q with
    | some pr => pr.1
    | none => []
  let text :=
    match q with
    | some pr => pr.2
    | none => rawText
  let quoteDepth := qpre.count '>'
  let baseOffset := lf + qpre.length
  let qdecos :=
    if qpre.length ≠ 0 then quoteDecos mode sel d lf baseOffset quoteDepth else []
  let fallback : List Deco × Nat × ResourceState × List OutMsg :=
    let r := restRules settingsO mode sel docUri d n lf lt baseOffset text st
    (qdecos ++ r.1, lt + 1, r.2.1, r.2.2)
  let tableStep : List Deco × Nat × ResourceState × List OutMsg :=
    match (if qpre.length ≠ 0 then none else parseGfmTableRangeAtLine d n) with
    | some table =>
      if !(selectionOverlaps sel (lineFrom d table.headerLineNo)
            (Nat.min (docLength d) (lineTo d table.endLineNo + 1))) then
        (qdecos ++ tableDecos mode sel d table, lineTo d table.endLineNo + 1, st, [])
      else fallback
    | none => fallback
  if hrMatch text && !(selectionOverlaps sel lf (Nat.min (docLength d) (lt + 1))) then
    (qdecos ++ hrDecos lf lt baseOffset, lt + 1, st, [])
  else
    match (if qpre.length ≠ 0 then none else parseFencedCodeBlockRangeAtLine d n) with
    | some block =>
      let blockFrom := lineFrom d block.startLineNo
      let blockToInclusive := Nat.min (docLength d)
        (lineTo d block.endLineNo + (if block.endLineNo < d.length then 1 else 0))
      if !(selectionOverlaps sel blockFrom blockToInclusive) then
        (qdecos ++ fenceDecos d block, lineTo d block.endLineNo + 1, st, [])
      else tableStep
    | none => tableStep

/-- The `while (pos <= r.to)` loop over one visible range (fuel-indexed; the
callers hand enough fuel for the loop to run to completion, since the scan
position strictly increases). -/
def rangeLoop (settingsO : Option QSettings) (mode : Mode) (sel : Sel)
    (docUri : String) (d : Doc) :
    Nat → Nat → Nat → ResourceState → List Deco × ResourceState × List OutMsg
  | 0, _, _, st => ([], st, [])
  | fuel + 1, pos, rto, st =>
    if pos > rto then ([], st, [])
    else
      let n := lineAt d pos
      if lineFrom d n ≥ rto then ([], st, [])
      else
        let r := processLine settingsO mode sel docUri d n st
        let r2 := rangeLoop settingsO mode sel docUri d fuel r.2.1 rto r.2.2.1
        (r.1 ++ r2.1, r2.2.1, r.2.2.2 ++ r2.2.2)

/-- Output of `buildDecorations`: the decoration list, the resource state
after the pass, and the messages posted during the pass. -/
structure BuildOut where
  decos : List Deco
  rstate : ResourceState
  msgs : List OutMsg
  deriving Repr, DecidableEq

/-- main.ts `buildDecorations` over a list of visible ranges: the mode is
`settings?.syntaxVisibility ?? "smart"`, and each range is scanned line by
line from its start. -/
def buildDecorations (settingsO : Option QSettings) (sel : Sel) (docUri : String)
    (d : Doc) (ranges : List (Nat × Nat)) (st : ResourceState) : BuildOut :=
  let mode :=
    match settingsO with
    | some s => s.syntaxVisibility
    | none => Mode.smart
  ranges.foldl (fun acc r =>
    let out := rangeLoop settingsO mode sel docUri d (r.2 + 2) r.1 r.2 acc.rstate
    ⟨acc.decos ++ out.1, out.2.1, acc.msgs ++ out.2.2⟩)
    ⟨[], st, []⟩

/-- Is a decoration a replace or a widget (the content-altering kinds)? -/
def isReplaceOrWidget : Deco → Bool
  | Deco.repl _ _ => true
  | Deco.widget _ _ _ => true
  | _ => false

/-- The replace/widget subset of a decoration list. -/
def replaceWidgetDecos (l : List Deco) : List Deco := l.filter isReplaceOrWidget

/-- Is a decoration a widget? -/
def isWidgetDeco : Deco → Bool
  | Deco.widget _ _ _ => true
  | _ => false

/-- Erase the class of mark decorations (the only data the visibility mode
can influence). -/
def stripDeco : Deco → Deco
  | Deco.mark lo hi _ => Deco.mark lo hi ""
  | x => x

/-- Class stripping over a (decorations, state, messages) triple. -/
def stripPair (x : List Deco × ResourceState × List OutMsg) :
    List Deco × ResourceState × List OutMsg :=
  (x.1.map stripDeco, x.2)

/-- Class stripping over a `processLine` result. -/
def stripStep (x : List Deco × Nat × ResourceState × List OutMsg) :
    List Deco × Nat × ResourceState × List OutMsg :=
  (x.1.map stripDeco, x.2)

/-- Class stripping over a `buildDecorations` result. -/
def stripBuild (o : BuildOut) : BuildOut :=
  ⟨o.decos.map stripDeco, o.rstate, o.msgs⟩

end Quench

namespace Quench

/-- `insertByOffsetDesc` permutes. -/
theorem insertByOffsetDesc_perm (x : TextChange) (l : List TextChange) :
    (insertByOffsetDesc x l).Perm (x :: l) := by
  induction l with
  | nil => simp [insertByOffsetDesc]
  | cons y ys ih =>
    simp only [insertByOffsetDesc]
    split
    · exact ((ih.cons y).trans (List.Perm.swap x y ys)).symm.symm
    · exact List.Perm.refl _

/-- `sortByOffsetDesc` permutes its input. -/
theorem sortByOffsetDesc_perm (l : List TextChange) : (sortByOffsetDesc l).Perm l := by
  suffices h : ∀ acc : List TextChange,
      (l.foldl (fun acc x => insertByOffsetDesc x acc) acc).Perm (acc ++ l) by
    simpa [sortByOffsetDesc] using h []
  induction l with
  | nil => intro acc; simp
  | cons x xs ih =>
    intro acc
    simp only [List.foldl_cons]
    refine (ih (insertByOffsetDesc x acc)).trans ?_
    have h1 : (insertByOffsetDesc x acc ++ xs).Perm ((x :: acc) ++ xs) :=
      (insertByOffsetDesc_perm x acc).append_right xs
    refine h1.trans ?_
    show (x :: (acc ++ xs)).Perm (acc ++ x :: xs)
    exact List.perm_middle.symm

/-- `insertByOffsetDesc` preserves descending sortedness by `rangeOffset`. -/
theorem insertByOffsetDesc_sorted (x : TextChange) (l : List TextChange)
    (h : l.Pairwise (fun a b => b.rangeOffset ≤ a.rangeOffset)) :
    (insertByOffsetDesc x l).Pairwise (fun a b => b.rangeOffset ≤ a.rangeOffset) := by
  induction l with
  | nil => simp [insertByOffsetDesc]
  | cons y ys ih =>
    rcases List.pairwise_cons.mp h with ⟨hy, hys⟩
    simp only [insertByOffsetDesc]
    split
    · rename_i hxy
      refine List.pairwise_cons.mpr ⟨?_, ih hys⟩
      intro z hz
      rcases List.mem_cons.mp ((insertByOffsetDesc_perm x ys).mem_iff.mp hz) with hz1 | hz1
      · subst hz1; exact hxy
      · exact hy z hz1
    · rename_i hxy
      push_neg at hxy
      refine List.pairwise_cons.mpr ⟨?_, h⟩
      intro z hz
      rcases List.mem_cons.mp hz with hz1 | hz1
      · subst hz1; exact Nat.le_of_lt hxy
      · exact Nat.le_of_lt (Nat.lt_of_le_of_lt (hy z hz1) hxy)

/-- `sortByOffsetDesc` yields a list sorted by descending `rangeOffset`. -/
theorem sortByOffsetDesc_sorted (l : List TextChange) :
    (sortByOffsetDesc l).Pairwise (fun a b => b.rangeOffset ≤ a.rangeOffset) := by
  suffices h : ∀ acc : List TextChange,
      acc.Pairwise (fun a b => b.rangeOffset ≤ a.rangeOffset) →
      (l.foldl (fun acc x => insertByOffsetDesc x acc) acc).Pairwise
        (fun a b => b.rangeOffset ≤ a.rangeOffset) by
    exact h [] (by simp)
  induction l with
  | nil => intro acc hacc; simpa
  | cons x xs ih =>
    intro acc hacc
    exact ih (insertByOffsetDesc x acc) (insertByOffsetDesc_sorted x acc hacc)

/-- C1: the `APPLY_EDIT` posted by the surface's update listener carries
`baseVersion = lastConfirmedVersion + pendingRequestIds.length`, both read
before the new request is enqueued. -/
theorem submitEdit_baseVersion (s : SurfaceState) (changes : List TextChange) :
    (submitEdit s changes).2 =
      OutMsg.applyEdit (toString s.nextRequestId)
        (s.lastConfirmedVersion + s.pendingRequestIds.length) changes := by
  simp [submitEdit, baseVersionForNextEdit]

/-- C2: a `DOC_PATCH` arriving with a non-empty pending queue is not applied —
the queue is cleared, a resync is requested and the user is notified; with an
empty queue the changes are applied to the buffer in descending-offset order
(a permutation of the patch, sorted by descending `rangeOffset`) and
`lastConfirmedVersion` becomes the patch version. -/
theorem applyDocPatch_spec (s : SurfaceState) (version : Nat) (changes : List TextChange) :
    (s.pendingRequestIds ≠ [] →
      applyDocPatch s version changes =
        ({ s with banner := some ("External change detected. Resyncing (pending input will be discarded).")
                  pendingRequestIds := [] },
         [OutMsg.requestDocResync]))
    ∧ (s.pendingRequestIds = [] →
      (applyDocPatch s version changes).1.buffer =
          (sortByOffsetDesc changes).foldl applyTextChange s.buffer
        ∧ (sortByOffsetDesc changes).Perm changes
        ∧ (sortByOffsetDesc changes).Pairwise (fun a b => b.rangeOffset ≤ a.rangeOffset)
        ∧ (applyDocPatch s version changes).1.lastConfirmedVersion = version
        ∧ (applyDocPatch s version changes).2 = []) := by
  constructor
  · intro h
    have hlen : s.pendingRequestIds.length > 0 := by
      cases hp : s.pendingRequestIds with
      | nil => exact absurd hp h
      | cons a l => simp [hp]
    simp [applyDocPatch, hlen]
  · intro h
    have hlen : ¬ s.pendingRequestIds.length > 0 := by simp [h]
    refine ⟨by simp [applyDocPatch, hlen], sortByOffsetDesc_perm changes,
      sortByOffsetDesc_sorted changes, by simp [applyDocPatch, hlen],
      by simp [applyDocPatch, hlen]⟩

/-- Witness for `applyDocPatch_spec` at concrete states: one with a pending
request (patch dropped, resync requested) and one with an empty queue (change
applied, version adopted). -/
theorem applyDocPatch_spec_witness :
    (let s1 : SurfaceState :=
      { lastConfirmedVersion := 3, pendingRequestIds := ["1"], nextRequestId := 2,
        buffer := ['a', 'b'], banner := none }
     (applyDocPatch s1 7 [⟨0, 0, ['x']⟩]).2 = [OutMsg.requestDocResync])
    ∧ (let s0 : SurfaceState :=
      { lastConfirmedVersion := 3, pendingRequestIds := [], nextRequestId := 2,
        buffer := ['a', 'b'], banner := none }
     (applyDocPatch s0 7 [⟨0, 0, ['x']⟩]).1.buffer = ['x', 'a', 'b']
       ∧ (applyDocPatch s0 7 [⟨0, 0, ['x']⟩]).1.lastConfirmedVersion = 7) := by
  refine ⟨?_, ?_, ?_⟩
  · exact congrArg Prod.snd ((applyDocPatch_spec
      { lastConfirmedVersion := 3, pendingRequestIds := ["1"], nextRequestId := 2,
        buffer := ['a', 'b'], banner := none } 7 [⟨0, 0, ['x']⟩]).1 (by decide))
  · have h := ((applyDocPatch_spec
      { lastConfirmedVersion := 3, pendingRequestIds := [], nextRequestId := 2,
        buffer := ['a', 'b'], banner := none } 7 [⟨0, 0, ['x']⟩]).2 rfl).1
    simpa using h
  · have h := ((applyDocPatch_spec
      { lastConfirmedVersion := 3, pendingRequestIds := [], nextRequestId := 2,
        buffer := ['a', 'b'], banner := none } 7 [⟨0, 0, ['x']⟩]).2 rfl).2.2.2.1
    simpa using h

/-- C4 counterexample: an `APPLY_EDIT_RESULT` arriving with an *empty* pending
queue (an unknown requestId) does **not** trigger a resync — the handler only
shows a banner and returns, contradicting the claim that this case clears the
queue and requests a full resync. -/
theorem handleApplyEditResult_unknownId_noResync :
    OutMsg.requestDocResync ∉
      (handleApplyEditResult
        { lastConfirmedVersion := 3, pendingRequestIds := [], nextRequestId := 2,
          buffer := ['a'], banner := none }
        { requestId := "1", applied := true, version := 4, error := none }).2 := by
  decide

/-- C4 (amended): a mismatched requestId against a *non-empty* queue clears
the queue and requests a resync; a matching confirmation pops the head and
adopts the reported version; with an *empty* queue the handler only shows a
banner — it neither requests a resync nor touches version or queue. -/
theorem handleApplyEditResult_spec (s : SurfaceState) (m : ApplyEditResultMsg) :
    (s.pendingRequestIds = [] →
      handleApplyEditResult s m =
        ({ s with banner := some ("Received APPLY_EDIT_RESULT but there is no pending request (requestId=" ++ m.requestId ++ ").") }, []))
    ∧ (∀ e rest, s.pendingRequestIds = e :: rest → e ≠ m.requestId →
      handleApplyEditResult s m =
        ({ s with banner := some ("Invalid APPLY_EDIT_RESULT order (expected=" ++ e ++ ", got=" ++ m.requestId ++ ").")
                  pendingRequestIds := [] },
         [OutMsg.requestDocResync]))
    ∧ (∀ e rest, s.pendingRequestIds = e :: rest → e = m.requestId → m.applied = true →
      (handleApplyEditResult s m).1.pendingRequestIds = rest
        ∧ (handleApplyEditResult s m).1.lastConfirmedVersion = m.version
        ∧ (handleApplyEditResult s m).2 = []) := by
  refine ⟨?_, ?_, ?_⟩
  · intro h
    simp [handleApplyEditResult, h]
  · intro e rest h hne
    simp [handleApplyEditResult, h, hne]
  · intro e rest h he happ
    by_cases hrest : rest.length = 0 <;>
      simp_all [handleApplyEditResult, h, he, happ]

/-- Witness for `handleApplyEditResult_spec` at concrete states exercising
all three cases. -/
theorem handleApplyEditResult_spec_witness :
    ((handleApplyEditResult
        { lastConfirmedVersion := 3, pendingRequestIds := [], nextRequestId := 2,
          buffer := ['a'], banner := none }
        { requestId := "9", applied := true, version := 4, error := none }).2 = [])
    ∧ ((handleApplyEditResult
        { lastConfirmedVersion := 3, pendingRequestIds := ["1", "2"], nextRequestId := 3,
          buffer := ['a'], banner := none }
        { requestId := "2", applied := true, version := 4, error := none }).2 =
          [OutMsg.requestDocResync])
    ∧ ((handleApplyEditResult
        { lastConfirmedVersion := 3, pendingRequestIds := ["1", "2"], nextRequestId := 3,
          buffer := ['a'], banner := none }
        { requestId := "1", applied := true, version := 4, error := none }).1.lastConfirmedVersion = 4) := by
  refine ⟨?_, ?_, ?_⟩
  · have h := (handleApplyEditResult_spec
      { lastConfirmedVersion := 3, pendingRequestIds := [], nextRequestId := 2,
        buffer := ['a'], banner := none }
      { requestId := "9", applied := true, version := 4, error := none }).1 rfl
    exact congrArg Prod.snd h
  · have h := (handleApplyEditResult_spec
      { lastConfirmedVersion := 3, pendingRequestIds := ["1", "2"], nextRequestId := 3,
        buffer := ['a'], banner := none }
      { requestId := "2", applied := true, version := 4, error := none }).2.1 "1" ["2"] rfl
      (by decide)
    exact congrArg Prod.snd h
  · exact ((handleApplyEditResult_spec
      { lastConfirmedVersion := 3, pendingRequestIds := ["1", "2"], nextRequestId := 3,
        buffer := ['a'], banner := none }
      { requestId := "1", applied := true, version := 4, error := none }).2.2 "1" ["2"] rfl rfl
      rfl).2.1

/-- C10: a rejection (`applied = false`) whose requestId matches the head of
the pending queue leaves `lastConfirmedVersion` untouched — the handler only
clears the queue, shows a banner and requests a resync. -/
theorem handleApplyEditResult_rejection_framesVersion (s : SurfaceState)
    (m : ApplyEditResultMsg) (e : String) (rest : List String)
    (h : s.pendingRequestIds = e :: rest) (he : e = m.requestId)
    (happ : m.applied = false) :
    handleApplyEditResult s m =
      ({ s with banner := some ("Edit was not applied: " ++ (m.error.getD "unknown"))
                pendingRequestIds := [] },
       [OutMsg.requestDocResync])
    ∧ (handleApplyEditResult s m).1.lastConfirmedVersion = s.lastConfirmedVersion := by
  constructor
  · simp [handleApplyEditResult, h, he, happ]
  · simp [handleApplyEditResult, h, he, happ]

/-- Witness for `handleApplyEditResult_rejection_framesVersion`: a concrete
rejected edit does not move `lastConfirmedVersion` (in particular not to the
version carried by the rejection). -/
theorem handleApplyEditResult_rejection_framesVersion_witness :
    (handleApplyEditResult
      { lastConfirmedVersion := 3, pendingRequestIds := ["1"], nextRequestId := 2,
        buffer := ['a'], banner := none }
      { requestId := "1", applied := false, version := 9, error := some ("version_mismatch") }).1.lastConfirmedVersion = 3 :=
  (handleApplyEditResult_rejection_framesVersion
    { lastConfirmedVersion := 3, pendingRequestIds := ["1"], nextRequestId := 2,
      buffer := ['a'], banner := none }
    { requestId := "1", applied := false, version := 9, error := some ("version_mismatch") }
    "1" [] rfl rfl rfl).2

/-- C3: an `APPLY_EDIT` whose `baseVersion` differs from the authority's
current document version is answered with `applied = false`,
`error = "version_mismatch"` plus a `DOC_RESYNC` carrying the current text,
current version and reason `"version_mismatch"`, and the document is left
untouched — for every behaviour of the host edit primitive. -/
theorem handleApplyEditMsg_versionMismatch
    (hostApply : AuthorityState → List TextChange → Option AuthorityState)
    (a : AuthorityState) (requestId : String) (baseVersion : Nat)
    (changes : List TextChange) (h : a.version ≠ baseVersion) :
    handleApplyEditMsg hostApply a requestId baseVersion changes =
      (a,
       [ExtMsg.applyEditResult requestId false a.version (some ("version_mismatch")),
        ExtMsg.docResync a.text a.version ("version_mismatch")]) := by
  simp [handleApplyEditMsg, h]

/-- Witness for `handleApplyEditMsg_versionMismatch`: Scenario D,
`baseVersion = 5` against `currentVersion = 6`. -/
theorem handleApplyEditMsg_versionMismatch_witness :
    handleApplyEditMsg (fun a _ => some a)
      { text := ['h', 'i'], version := 6, pendingApplyQueue := [] }
      "r1" 5 [⟨0, 0, ['x']⟩] =
      ({ text := ['h', 'i'], version := 6, pendingApplyQueue := [] },
       [ExtMsg.applyEditResult "r1" false 6 (some ("version_mismatch")),
        ExtMsg.docResync ['h', 'i'] 6 ("version_mismatch")]) :=
  handleApplyEditMsg_versionMismatch (fun a _ => some a)
    { text := ['h', 'i'], version := 6, pendingApplyQueue := [] }
    "r1" 5 [⟨0, 0, ['x']⟩] (by decide)

/-- C6 (code bug): `requestResourceUri` deduplicates only terminal `ok`
entries.  Starting from an empty cache, a first resolve issues a request and
marks the key `pending`; a second resolve for the same key — the cache entry
still `pending` — issues a *second* `REQUEST_RESOURCE_URI`, violating the
at-most-one-outstanding-request invariant (the `pending` variant is written
by the source but never read back). -/
theorem requestResourceUri_pending_reissues :
    (let st0 : ResourceState :=
      { resolvedImageCache := [], pendingResourceRequestIds := [], freshCounter := 0 }
     let r1 := requestResourceUri st0 ['i', 'm', 'g'] "doc.md"
     let r2 := requestResourceUri r1.2.1 ['i', 'm', 'g'] "doc.md"
     countResourceRequests r1.2.2 = 1
       ∧ mapGet r1.2.1.resolvedImageCache ("doc.md::img") = some CacheEntry.pending
       ∧ countResourceRequests r2.2.2 = 1) := by
  decide

/-- A successful fence-close search yields an in-range line number whose
line actually closes the fence. -/
theorem findCloseAux_some (c : Char) (len : Nat) (lines : List Line) (i j : Nat)
    (h : findCloseAux c len lines i = some j) :
    ∃ k, k < lines.length ∧ j = i + k ∧ closesFence (lines.getD k []) c len = true := by
  induction lines generalizing i with
  | nil => simp [findCloseAux] at h
  | cons t rest ih =>
    by_cases hc : closesFence t c len
    · refine ⟨0, by simp, ?_, by simpa using hc⟩
      simp [findCloseAux, hc] at h
      omega
    · simp only [findCloseAux, hc, if_neg, Bool.false_eq_true, if_false] at h
      rcases ih (i + 1) h with ⟨k, hk, hj, hcl⟩
      exact ⟨k + 1, by simpa using Nat.succ_lt_succ hk, by omega, by simpa using hcl⟩

/-- C9: an opening fence with no later closing fence line of the same
character and at least the same run length parses to `none` (an unclosed
fenced block is never detected), and any parsed block has
`startLineNo < endLineNo` with both line numbers inside the document. -/
theorem parseFencedCodeBlock_unclosed_and_bounds (d : Doc) (n : Nat) :
    (∀ c len tag, openFence (lineText d n) = some (c, len, tag) →
      (∀ m, n < m → m ≤ d.length → closesFence (lineText d m) c len = false) →
      parseFencedCodeBlockRangeAtLine d n = none)
    ∧ (∀ b, parseFencedCodeBlockRangeAtLine d n = some b →
      b.startLineNo < b.endLineNo ∧ 1 ≤ b.startLineNo ∧ b.endLineNo ≤ d.length) := by
  have hconn : ∀ k, (d.drop n).getD k [] = lineText d (n + 1 + k) := by
    intro k
    simp only [lineText, show n + 1 + k - 1 = n + k from by omega]
    simp [List.getD_eq_getElem?_getD, List.getElem?_drop]
  constructor
  · intro c len tag hopen hnone
    unfold parseFencedCodeBlockRangeAtLine
    by_cases hb : n < 1 ∨ n > d.length
    · rw [if_pos hb]
    · rw [if_neg hb]
      push_neg at hb
      split
      · rfl
      · rename_i c' len' tag' hopen'
        rw [hopen] at hopen'
        simp only [Option.some.injEq, Prod.mk.injEq] at hopen'
        obtain ⟨hc, hlen', htag⟩ := hopen'
        subst hc; subst hlen'
        split
        · rfl
        · rename_i j hfind
          exfalso
          rcases findCloseAux_some c len (d.drop n) (n + 1) j hfind with ⟨k, hk, hj, hcl⟩
          have hlen : (d.drop n).length = d.length - n := by simp
          have hm1 : n < j := by omega
          have hm2 : j ≤ d.length := by omega
          have hfalse := hnone j hm1 hm2
          rw [hconn k, ← hj, hfalse] at hcl
          exact Bool.false_ne_true hcl
  · intro b hsome
    unfold parseFencedCodeBlockRangeAtLine at hsome
    by_cases hb : n < 1 ∨ n > d.length
    · rw [if_pos hb] at hsome; exact absurd hsome (by simp)
    · rw [if_neg hb] at hsome
      push_neg at hb
      split at hsome
      · exact absurd hsome (by simp)
      · rename_i c len tag hopen
        split at hsome
        · exact absurd hsome (by simp)
        · rename_i j hfind
          simp only [Option.some.injEq] at hsome
          rcases findCloseAux_some c len (d.drop n) (n + 1) j hfind with ⟨k, hk, hj, _⟩
          have hlen : (d.drop n).length = d.length - n := by simp
          subst hsome
          exact ⟨by simp; omega, by simp; omega, by simp; omega⟩

/-- Witness for `parseFencedCodeBlock_unclosed_and_bounds`: an unclosed
`~~~` fence parses to `none`, and a closed backtick block at lines 1-3 of a
three-line document satisfies the bounds. -/
theorem parseFencedCodeBlock_unclosed_and_bounds_witness :
    parseFencedCodeBlockRangeAtLine [['~', '~', '~'], ['x']] 1 = none
    ∧ ((1 : Nat) < 3 ∧ (1 : Nat) ≤ 1 ∧ (3 : Nat) ≤ 3) := by
  constructor
  · refine (parseFencedCodeBlock_unclosed_and_bounds [['~', '~', '~'], ['x']] 1).1
      '~' 3 none (by decide) ?_
    intro m h1 h2
    have hm : m = 2 := by simp at h2; omega
    subst hm
    decide
  · have h := (parseFencedCodeBlock_unclosed_and_bounds
      [[btick, btick, btick], ['a'], [btick, btick, btick]] 1).2
      ⟨1, 3, btick, 3, none⟩ (by decide)
    exact h

/-- C5 counterexample: a zero-width cursor sitting exactly at the opening
boundary of the inline-code span `` `x` `` (span 0..3, cursor at 0) does
*not* count as intersecting — `selectionOverlaps` is false there — and the
delimiters are replaced (hidden) anyway. -/
theorem cursorAtHideBoundary_counterexample :
    selectionOverlaps ⟨0, 0⟩ 0 3 = false
    ∧ Deco.repl 0 1 ∈ inlineCodeDecos Mode.smart ⟨0, 0⟩ (String.data ("`x`")) 0
    ∧ Deco.repl 2 3 ∈ inlineCodeDecos Mode.smart ⟨0, 0⟩ (String.data ("`x`")) 0 := by
  decide

/-- C5 (amended): a zero-width selection intersects a span exactly when it
lies strictly inside it (`lo < p < hi`); a cursor at either boundary does
not intersect, and accordingly the inline-code rule emits its hide/replace
decorations precisely when the cursor is not strictly inside the span. -/
theorem zeroWidthSelection_strictInterior (mode : Mode) (p base start len : Nat) :
    (selectionOverlaps ⟨p, p⟩ (base + start) (base + start + len) = true ↔
      base + start < p ∧ p < base + start + len)
    ∧ (Deco.repl (base + start) (base + start + 1) ∈
        emitInlineCode mode ⟨p, p⟩ base (start, len) ↔
      ¬(base + start < p ∧ p < base + start + len)) := by
  have hov : selectionOverlaps ⟨p, p⟩ (base + start) (base + start + len) = true ↔
      base + start < p ∧ p < base + start + len := by
    simp only [selectionOverlaps]
    simp
    omega
  refine ⟨hov, ?_⟩
  by_cases h : base + start < p ∧ p < base + start + len
  · have hc : selectionOverlaps ⟨p, p⟩ (base + start) (base + start + len) = true :=
      hov.mpr h
    simp only [emitInlineCode, hc, if_true]
    simp [addMark, dimSyntax, h]
  · have hc : selectionOverlaps ⟨p, p⟩ (base + start) (base + start + len) = false := by
      cases hb : selectionOverlaps ⟨p, p⟩ (base + start) (base + start + len)
      · rfl
      · exact absurd (hov.mp hb) h
    simp only [emitInlineCode, hc]
    simp [addMark, h]

/-- The table-region extension never shrinks below its accumulator. -/
theorem tableEndAux_ge (lines : List Line) (ln acc : Nat) (h : acc < ln) :
    acc ≤ tableEndAux lines ln acc := by
  induction lines generalizing ln acc with
  | nil => simp [tableEndAux]
  | cons t rest ih =>
    simp only [tableEndAux]
    split
    · exact Nat.le_refl acc
    · split
      · exact Nat.le_refl acc
      · have := ih (ln + 1) ln (by omega)
        omega

/-- A parsed table region starts at the requested line, has its alignment
line immediately below, and extends at least to the alignment line. -/
theorem parseGfmTable_bounds (d : Doc) (n : Nat) (t : ParsedTableRange)
    (hp : parseGfmTableRangeAtLine d n = some t) :
    t.headerLineNo = n ∧ t.alignLineNo = n + 1 ∧ n + 1 ≤ t.endLineNo := by
  unfold parseGfmTableRangeAtLine at hp
  dsimp only [] at hp
  split at hp
  · exact absurd hp (by simp)
  · split at hp
    · exact absurd hp (by simp)
    · split at hp
      · exact absurd hp (by simp)
      · split at hp
        · exact absurd hp (by simp)
        · split at hp
          · exact absurd hp (by simp)
          · split at hp
            · exact absurd hp (by simp)
            · simp only [Option.some.injEq] at hp
              subst hp
              refine ⟨rfl, rfl, ?_⟩
              simpa using tableEndAux_ge (d.drop (n + 1)) (n + 2) (n + 1) (by omega)

/-- Every decoration the table rule emits is a line class or a mark. -/
theorem tableLineDecos_noRW (mode : Mode) (sel : Sel) (d : Doc)
    (t : ParsedTableRange) (ln : Nat) :
    ∀ x ∈ tableLineDecos mode sel d t ln, isReplaceOrWidget x = false := by
  intro x hx
  simp only [tableLineDecos, List.mem_append, List.mem_singleton] at hx
  rcases hx with hx | hx
  · subst hx
    rfl
  · simp only [pipeDims, List.mem_flatten, List.mem_map] at hx
    rcases hx with ⟨s, ⟨i, _, hs⟩, hxs⟩
    subst hs
    split at hxs
    · simp only [dimSyntax] at hxs
      split at hxs
      · simp at hxs
      · simp at hxs
        subst hxs
        rfl
    · simp at hxs

/-- C7 (amended): a detected table region is rendered without any widget or
replacement — each line receives a table-row line decoration and every pipe
character is dimmed; and with the cursor inside the region (Scenario C text,
cursor at offset 3) the builder emits *no* decorations at all (not even
dimmed pipes). -/
theorem tableRendering_amended (mode : Mode) (sel : Sel) (d : Doc) (n : Nat)
    (t : ParsedTableRange) (hp : parseGfmTableRangeAtLine d n = some t) :
    replaceWidgetDecos (tableDecos mode sel d t) = []
    ∧ (∀ ln i, t.headerLineNo ≤ ln → ln ≤ t.endLineNo →
        i < (lineText d ln).length → (lineText d ln).getD i ' ' = '|' →
        Deco.mark (lineFrom d ln + i) (lineFrom d ln + i + 1)
          (dimCls mode sel (lineFrom d ln + i) (lineFrom d ln + i + 1)) ∈
          tableDecos mode sel d t)
    ∧ (buildDecorations (some ⟨Mode.smart, ⟨false⟩⟩) ⟨3, 3⟩ "doc"
        [String.data ("a | b |c"), String.data ("---|---|---"), String.data ("1|2|3")]
        [(0, 26)] ⟨[], [], 0⟩).decos = [] := by
  obtain ⟨hh, ha, he⟩ := parseGfmTable_bounds d n t hp
  refine ⟨?_, ?_, by decide⟩
  · apply List.filter_eq_nil_iff.mpr
    intro x hx
    simp only [tableDecos, List.mem_flatten, List.mem_map] at hx
    rcases hx with ⟨s, ⟨ln, _, hs⟩, hxs⟩
    subst hs
    simp [tableLineDecos_noRW mode sel d t ln x hxs]
  · intro ln i h1 h2 h3 h4
    simp only [tableDecos, List.mem_flatten]
    refine ⟨tableLineDecos mode sel d t ln, List.mem_map.mpr ⟨ln, ?_, rfl⟩, ?_⟩
    · apply List.mem_range'_1.mpr
      omega
    · simp only [tableLineDecos, List.mem_append]
      right
      simp only [pipeDims, List.mem_flatten]
      refine ⟨dimSyntax mode sel (lineFrom d ln + i) (lineFrom d ln + i + 1),
        List.mem_map.mpr ⟨i, List.mem_range.mpr h3, by rw [if_pos h4]⟩, ?_⟩
      simp [dimSyntax]

/-- Witness for `tableRendering_amended` at Scenario C's text (with a fourth
line and the cursor far from the region): no replace/widget decorations, and
the pipe at offset 2 of the header line is dimmed. -/
theorem tableRendering_amended_witness :
    replaceWidgetDecos (tableDecos Mode.smart ⟨28, 28⟩
      [String.data ("a | b |c"), String.data ("---|---|---"),
       String.data ("1|2|3"), String.data ("x")] ⟨1, 2, 3⟩) = []
    ∧ Deco.mark 2 3 (dimCls Mode.smart ⟨28, 28⟩ 2 3) ∈ tableDecos Mode.smart ⟨28, 28⟩
      [String.data ("a | b |c"), String.data ("---|---|---"),
       String.data ("1|2|3"), String.data ("x")] ⟨1, 2, 3⟩ := by
  constructor
  · exact (tableRendering_amended Mode.smart ⟨28, 28⟩
      [String.data ("a | b |c"), String.data ("---|---|---"),
       String.data ("1|2|3"), String.data ("x")] 1 ⟨1, 2, 3⟩ (by decide)).1
  · exact (tableRendering_amended Mode.smart ⟨28, 28⟩
      [String.data ("a | b |c"), String.data ("---|---|---"),
       String.data ("1|2|3"), String.data ("x")] 1 ⟨1, 2, 3⟩ (by decide)).2.1
      1 2 (by decide) (by decide) (by decide) (by decide)

/-- Lists with equal class-stripped images have equal replace/widget
subsets (stripping only touches mark classes, which the filter discards). -/
theorem strip_eq_filter_rw (l1 l2 : List Deco)
    (h : l1.map stripDeco = l2.map stripDeco) :
    replaceWidgetDecos l1 = replaceWidgetDecos l2 := by
  induction l1 generalizing l2 with
  | nil =>
    cases l2 with
    | nil => rfl
    | cons b bs => simp at h
  | cons a as ih =>
    cases l2 with
    | nil => simp at h
    | cons b bs =>
      simp only [List.map_cons, List.cons.injEq] at h
      obtain ⟨hab, hrest⟩ := h
      have htail := ih bs hrest
      have hhead : isReplaceOrWidget a = isReplaceOrWidget b ∧
          (isReplaceOrWidget a = true → a = b) := by
        cases a <;> cases b <;> simp_all [stripDeco, isReplaceOrWidget]
      simp only [replaceWidgetDecos, List.filter_cons]
      cases hrw : isReplaceOrWidget a
      · rw [hhead.1] at hrw
        rw [hrw]
        exact htail
      · have hb := hhead.1.symm.trans hrw
        rw [hb, hhead.2 hrw]
        simp only [replaceWidgetDecos] at htail
        rw [htail]

/-- The class-stripped image of `dimSyntax` is mode-independent. -/
theorem strip_dimSyntax (m : Mode) (sel : Sel) (lo hi : Nat) :
    (dimSyntax m sel lo hi).map stripDeco =
      if lo ≥ hi then [] else [Deco.mark lo hi ""] := by
  unfold dimSyntax
  split <;> simp [stripDeco]

/-- The class-stripped image of `addMark` forgets the class. -/
theorem strip_addMark (lo hi : Nat) (cls : String) :
    (addMark lo hi cls).map stripDeco =
      if lo ≥ hi then [] else [Deco.mark lo hi ""] := by
  unfold addMark
  split <;> simp [stripDeco]

/-- Quote decorations are mode-independent up to mark classes. -/
theorem strip_quoteDecos (m m' : Mode) (sel : Sel) (d : Doc)
    (lf baseOffset depth : Nat) :
    (quoteDecos m sel d lf baseOffset depth).map stripDeco =
      (quoteDecos m' sel d lf baseOffset depth).map stripDeco := by
  simp [quoteDecos, strip_dimSyntax, stripDeco]

/-- Pipe dimming is mode-independent up to mark classes. -/
theorem strip_pipeDims (m m' : Mode) (sel : Sel) (lf : Nat) (text : Line) :
    (pipeDims m sel lf text).map stripDeco =
      (pipeDims m' sel lf text).map stripDeco := by
  simp only [pipeDims, List.map_flatten, List.map_map]
  congr 1
  apply List.map_congr_left
  intro i _
  simp only [Function.comp_apply]
  split <;> simp [strip_dimSyntax]

/-- Table decorations are mode-independent up to mark classes. -/
theorem strip_tableDecos (m m' : Mode) (sel : Sel) (d : Doc)
    (t : ParsedTableRange) :
    (tableDecos m sel d t).map stripDeco = (tableDecos m' sel d t).map stripDeco := by
  simp only [tableDecos, List.map_flatten, List.map_map]
  congr 1
  apply List.map_congr_left
  intro ln _
  simp only [Function.comp_apply, tableLineDecos, List.map_append]
  rw [strip_pipeDims m m']

/-- Task decorations are mode-independent up to mark classes. -/
theorem strip_taskDecos (m m' : Mode) (sel : Sel) (d : Doc) (baseOffset : Nat)
    (tm : TaskMatch) :
    (taskDecos m sel d baseOffset tm).map stripDeco =
      (taskDecos m' sel d baseOffset tm).map stripDeco := by
  simp only [taskDecos]
  split <;> simp [List.map_append, strip_dimSyntax, stripDeco]

/-- Bullet decorations are mode-independent up to mark classes. -/
theorem strip_bulletDecos (m m' : Mode) (sel : Sel) (baseOffset : Nat)
    (bm : BulletMatch) :
    (bulletDecos m sel baseOffset bm).map stripDeco =
      (bulletDecos m' sel baseOffset bm).map stripDeco := by
  simp only [bulletDecos]
  split <;> simp [List.map_append, strip_dimSyntax, stripDeco]

/-- Heading decorations are mode-independent up to mark classes. -/
theorem strip_headingDecos (m m' : Mode) (sel : Sel) (lf lt baseOffset h w : Nat) :
    (headingDecos m sel lf lt baseOffset h w).map stripDeco =
      (headingDecos m' sel lf lt baseOffset h w).map stripDeco := by
  simp [headingDecos, List.map_append, strip_dimSyntax, strip_addMark, stripDeco]

/-- Setext decorations are mode-independent up to mark classes. -/
theorem strip_setextDecos (m m' : Mode) (sel : Sel) (d : Doc)
    (lf lt baseOffset level nf nt : Nat) :
    (setextDecos m sel d lf lt baseOffset level nf nt).map stripDeco =
      (setextDecos m' sel d lf lt baseOffset level nf nt).map stripDeco := by
  unfold setextDecos
  split <;> simp [List.map_append, strip_dimSyntax, strip_addMark, stripDeco]

/-- Inline-code emission is mode-independent up to mark classes. -/
theorem strip_emitInlineCode (m m' : Mode) (sel : Sel) (baseOffset : Nat)
    (mm : Nat × Nat) :
    (emitInlineCode m sel baseOffset mm).map stripDeco =
      (emitInlineCode m' sel baseOffset mm).map stripDeco := by
  simp only [emitInlineCode]
  split <;> simp [List.map_append, strip_dimSyntax, strip_addMark, stripDeco]

/-- Inline-code decorations of a line, mode-independent up to mark classes. -/
theorem strip_inlineCodeDecos (m m' : Mode) (sel : Sel) (text : Line)
    (baseOffset : Nat) :
    (inlineCodeDecos m sel text baseOffset).map stripDeco =
      (inlineCodeDecos m' sel text baseOffset).map stripDeco := by
  simp only [inlineCodeDecos, List.map_flatten, List.map_map]
  congr 1
  apply List.map_congr_left
  intro a _
  simp only [Function.comp_apply]
  exact strip_emitInlineCode m m' sel baseOffset a

/-- Bold emission is mode-independent up to mark classes. -/
theorem strip_emitBold (m m' : Mode) (sel : Sel) (baseOffset : Nat)
    (mm : Nat × Nat) :
    (emitBold m sel baseOffset mm).map stripDeco =
      (emitBold m' sel baseOffset mm).map stripDeco := by
  simp [emitBold, List.map_append, strip_dimSyntax, strip_addMark]

/-- Bold decorations of a line, mode-independent up to mark classes. -/
theorem strip_boldDecos (m m' : Mode) (sel : Sel) (text : Line) (baseOffset : Nat) :
    (boldDecos m sel text baseOffset).map stripDeco =
      (boldDecos m' sel text baseOffset).map stripDeco := by
  simp only [boldDecos, List.map_flatten, List.map_map]
  congr 1
  apply List.map_congr_left
  intro a _
  simp only [Function.comp_apply]
  exact strip_emitBold m m' sel baseOffset a

/-- Italic emission is mode-independent up to mark classes. -/
theorem strip_emitItalic (m m' : Mode) (sel : Sel) (baseOffset : Nat)
    (mm : Nat × Nat × Nat) :
    (emitItalic m sel baseOffset mm).map stripDeco =
      (emitItalic m' sel baseOffset mm).map stripDeco := by
  simp [emitItalic, List.map_append, strip_dimSyntax, strip_addMark]

/-- Italic decorations of a line, mode-independent up to mark classes. -/
theorem strip_italicDecos (m m' : Mode) (sel : Sel) (text : Line) (baseOffset : Nat) :
    (italicDecos m sel text baseOffset).map stripDeco =
      (italicDecos m' sel text baseOffset).map stripDeco := by
  simp only [italicDecos, List.map_flatten, List.map_map]
  congr 1
  apply List.map_congr_left
  intro a _
  simp only [Function.comp_apply]
  exact strip_emitItalic m m' sel baseOffset a

/-- Link emission: equal stripped decorations and equal state/messages for
settings that agree on security, whatever the two modes are. -/
theorem strip_emitLink (s1 s2 : QSettings) (hsec : s1.security = s2.security)
    (m m' : Mode) (sel : Sel) (u : String) (b : Nat) (st : ResourceState)
    (lm : LinkMatch) :
    (emitLink (some s1) m sel u b st lm).1.map stripDeco =
        (emitLink (some s2) m' sel u b st lm).1.map stripDeco
    ∧ (emitLink (some s1) m sel u b st lm).2 =
        (emitLink (some s2) m' sel u b st lm).2 := by
  cases hbang : lm.bang <;>
    cases hext : isExternalHref lm.dest && !s2.security.allowExternalImages <;>
      constructor <;>
        simp [emitLink, hbang, hext, hsec, List.map_append, strip_dimSyntax,
          strip_addMark, stripDeco]

/-- `emitLinks` under two modes/settings agreeing on security: equal
stripped decorations and equal state/messages. -/
theorem strip_emitLinks (s1 s2 : QSettings) (hsec : s1.security = s2.security)
    (m m' : Mode) (sel : Sel) (u : String) (b : Nat) (ms : List LinkMatch) :
    ∀ st : ResourceState,
    (emitLinks (some s1) m sel u b st ms).1.map stripDeco =
        (emitLinks (some s2) m' sel u b st ms).1.map stripDeco
    ∧ (emitLinks (some s1) m sel u b st ms).2 =
        (emitLinks (some s2) m' sel u b st ms).2 := by
  induction ms with
  | nil => intro st; exact ⟨rfl, rfl⟩
  | cons mm rest ih =>
    intro st
    obtain ⟨hd, ht⟩ := strip_emitLink s1 s2 hsec m m' sel u b st mm
    have hst : (emitLink (some s1) m sel u b st mm).2.1 =
        (emitLink (some s2) m' sel u b st mm).2.1 := congrArg Prod.fst ht
    have hmsg : (emitLink (some s1) m sel u b st mm).2.2 =
        (emitLink (some s2) m' sel u b st mm).2.2 := congrArg Prod.snd ht
    obtain ⟨ihd, iht⟩ := ih ((emitLink (some s1) m sel u b st mm).2.1)
    have ihst : (emitLinks (some s1) m sel u b
          ((emitLink (some s1) m sel u b st mm).2.1) rest).2.1 =
        (emitLinks (some s2) m' sel u b
          ((emitLink (some s2) m' sel u b st mm).2.1) rest).2.1 := by
      rw [← hst]; exact congrArg Prod.fst iht
    have ihmsg : (emitLinks (some s1) m sel u b
          ((emitLink (some s1) m sel u b st mm).2.1) rest).2.2 =
        (emitLinks (some s2) m' sel u b
          ((emitLink (some s2) m' sel u b st mm).2.1) rest).2.2 := by
      rw [← hst]; exact congrArg Prod.snd iht
    have ihd' : (emitLinks (some s1) m sel u b
          ((emitLink (some s1) m sel u b st mm).2.1) rest).1.map stripDeco =
        (emitLinks (some s2) m' sel u b
          ((emitLink (some s2) m' sel u b st mm).2.1) rest).1.map stripDeco := by
      rw [← hst]; exact ihd
    refine ⟨?_, ?_⟩
    · simp only [emitLinks, List.map_append]
      rw [hd, ihd']
    · simp only [emitLinks]
      rw [ihst, hmsg, ihmsg]

/-- `emitImgTag` depends on the settings only through security. -/
theorem emitImgTag_security (s1 s2 : QSettings) (hsec : s1.security = s2.security)
    (u : String) (b : Nat) (st : ResourceState) (mm : Nat × Line) :
    emitImgTag (some s1) u b st mm = emitImgTag (some s2) u b st mm := by
  cases hp : parseHtmlImgTag mm.2 <;> simp [emitImgTag, hp, hsec]

/-- `emitImgTags` depends on the settings only through security. -/
theorem emitImgTags_security (s1 s2 : QSettings) (hsec : s1.security = s2.security)
    (u : String) (b : Nat) (ms : List (Nat × Line)) :
    ∀ st : ResourceState,
    emitImgTags (some s1) u b st ms = emitImgTags (some s2) u b st ms := by
  induction ms with
  | nil => intro st; rfl
  | cons mm rest ih =>
    intro st
    simp only [emitImgTags]
    rw [emitImgTag_security s1 s2 hsec u b st mm, ih]

/-- C7 counterexample: on Scenario C's text (a fourth line added and the
cursor at the document's very end, far from the table region) the builder
emits *no* widget and *no* replace decoration at all — the region is not
rendered as a block table widget in place of the raw lines. -/
theorem tableRegion_noWidget_counterexample :
    (let d : Doc := [String.data ("a | b |c"), String.data ("---|---|---"),
      String.data ("1|2|3"), String.data ("x")]
     let out := buildDecorations (some ⟨Mode.smart, ⟨false⟩⟩) ⟨28, 28⟩ "doc" d
       [(0, docLength d)] ⟨[], [], 0⟩
     parseGfmTableRangeAtLine d 1 = some ⟨1, 2, 3⟩
       ∧ out.decos.filter isWidgetDeco = []
       ∧ replaceWidgetDecos out.decos = []) := by
  decide

/-- The fall-through rules emit equal stripped decorations and identical
state/messages under two settings agreeing on security, whatever the modes. -/
theorem strip_restRules (s1 s2 : QSettings) (hsec : s1.security = s2.security)
    (m m' : Mode) (sel : Sel) (u : String) (d : Doc) (n lf lt baseOffset : Nat)
    (text : Line) (st : ResourceState) :
    stripPair (restRules (some s1) m sel u d n lf lt baseOffset text st) =
      stripPair (restRules (some s2) m' sel u d n lf lt baseOffset text st) := by
  obtain ⟨hld, hlt⟩ := strip_emitLinks s1 s2 hsec m m' sel u baseOffset
    (linkMatches text.length text 0) st
  have hlst : (emitLinks (some s1) m sel u baseOffset st
        (linkMatches text.length text 0)).2.1 =
      (emitLinks (some s2) m' sel u baseOffset st
        (linkMatches text.length text 0)).2.1 := congrArg Prod.fst hlt
  have hlmsg : (emitLinks (some s1) m sel u baseOffset st
        (linkMatches text.length text 0)).2.2 =
      (emitLinks (some s2) m' sel u baseOffset st
        (linkMatches text.length text 0)).2.2 := congrArg Prod.snd hlt
  have himg2 : emitImgTags (some s1) u baseOffset
        (emitLinks (some s1) m sel u baseOffset st
          (linkMatches text.length text 0)).2.1 (imgMatches text.length text 0) =
      emitImgTags (some s2) u baseOffset
        (emitLinks (some s2) m' sel u baseOffset st
          (linkMatches text.length text 0)).2.1 (imgMatches text.length text 0) := by
    rw [← hlst]
    exact emitImgTags_security s1 s2 hsec u baseOffset (imgMatches text.length text 0) _
  have htask : (match taskMatch text with
      | some tm => taskDecos m sel d baseOffset tm
      | none => []).map stripDeco = (match taskMatch text with
      | some tm => taskDecos m' sel d baseOffset tm
      | none => []).map stripDeco := by
    cases taskMatch text with
    | some tm => exact strip_taskDecos m m' sel d baseOffset tm
    | none => rfl
  have hbullet : (match bulletMatch text with
      | some bm => bulletDecos m sel baseOffset bm
      | none => []).map stripDeco = (match bulletMatch text with
      | some bm => bulletDecos m' sel baseOffset bm
      | none => []).map stripDeco := by
    cases bulletMatch text with
    | some bm => exact strip_bulletDecos m m' sel baseOffset bm
    | none => rfl
  have hhead : (match headingMatch text with
      | some hw => headingDecos m sel lf lt baseOffset hw.1 hw.2
      | none => []).map stripDeco = (match headingMatch text with
      | some hw => headingDecos m' sel lf lt baseOffset hw.1 hw.2
      | none => []).map stripDeco := by
    cases headingMatch text with
    | some hw => exact strip_headingDecos m m' sel lf lt baseOffset hw.1 hw.2
    | none => rfl
  have hsetext : (if headingMatch text = none ∧ n < d.length then
      match setextMatch (lineText d (n + 1)) with
      | some level =>
        if (jsTrim text).length > 0 then
          setextDecos m sel d lf lt baseOffset level
            (lineFrom d (n + 1)) (lineTo d (n + 1))
        else []
      | none => []
      else []).map stripDeco = (if headingMatch text = none ∧ n < d.length then
      match setextMatch (lineText d (n + 1)) with
      | some level =>
        if (jsTrim text).length > 0 then
          setextDecos m' sel d lf lt baseOffset level
            (lineFrom d (n + 1)) (lineTo d (n + 1))
        else []
      | none => []
      else []).map stripDeco := by
    split
    · cases setextMatch (lineText d (n + 1)) with
      | some level =>
        by_cases hjt : (jsTrim text).length > 0
        · simp only [if_pos hjt]
          exact strip_setextDecos m m' sel d lf lt baseOffset level
            (lineFrom d (n + 1)) (lineTo d (n + 1))
        · simp only [if_neg hjt]
      | none => rfl
    · rfl
  simp only [restRules, stripPair, List.map_append]
  rw [htask, hbullet, hhead, hsetext, strip_inlineCodeDecos m m',
    strip_boldDecos m m', strip_italicDecos m m', hld, himg2, hlmsg]

/-- One line of the builder loop: equal stripped decorations, equal next
position, state and messages, under two settings agreeing on security. -/
theorem strip_processLine (s1 s2 : QSettings) (hsec : s1.security = s2.security)
    (m m' : Mode) (sel : Sel) (u : String) (d : Doc) (n : Nat) (st : ResourceState) :
    stripStep (processLine (some s1) m sel u d n st) =
      stripStep (processLine (some s2) m' sel u d n st) := by
  cases hq : quoteMatch (lineText d n) with
  | none =>
    have hr := strip_restRules s1 s2 hsec m m' sel u d n (lineFrom d n) (lineTo d n)
      (lineFrom d n + (List.length ([] : Line))) (lineText d n) st
    have hr1 := congrArg Prod.fst hr
    have hr2 := congrArg Prod.snd hr
    simp only [stripPair] at hr1 hr2
    simp only [List.length_nil, Nat.add_zero] at hr1 hr2
    simp only [processLine, hq]
    repeat' split
    all_goals
      simp [stripStep, List.map_append, apply_ite (List.map stripDeco),
        strip_quoteDecos m m', strip_tableDecos m m', hr1, hr2]
  | some pr =>
    have hr := strip_restRules s1 s2 hsec m m' sel u d n (lineFrom d n) (lineTo d n)
      (lineFrom d n + pr.1.length) pr.2 st
    have hr1 := congrArg Prod.fst hr
    have hr2 := congrArg Prod.snd hr
    simp only [stripPair] at hr1 hr2
    simp only [processLine, hq]
    repeat' split
    all_goals
      simp [stripStep, List.map_append, apply_ite (List.map stripDeco),
        strip_quoteDecos m m', strip_tableDecos m m', hr1, hr2]

/-- The per-range loop: equal stripped decorations and identical
state/messages under two settings agreeing on security. -/
theorem strip_rangeLoop (s1 s2 : QSettings) (hsec : s1.security = s2.security)
    (m m' : Mode) (sel : Sel) (u : String) (d : Doc) :
    ∀ (fuel pos rto : Nat) (st : ResourceState),
    stripPair (rangeLoop (some s1) m sel u d fuel pos rto st) =
      stripPair (rangeLoop (some s2) m' sel u d fuel pos rto st) := by
  intro fuel
  induction fuel with
  | zero => intro pos rto st; rfl
  | succ fuel ih =>
    intro pos rto st
    simp only [rangeLoop]
    by_cases h1 : pos > rto
    · simp [h1]
    · simp only [if_neg h1]
      by_cases h2 : lineFrom d (lineAt d pos) ≥ rto
      · simp [h2]
      · simp only [if_neg h2]
        have hpl := strip_processLine s1 s2 hsec m m' sel u d (lineAt d pos) st
        have hdec := congrArg Prod.fst hpl
        have hrest := congrArg Prod.snd hpl
        simp only [stripStep] at hdec hrest
        have hnext : (processLine (some s1) m sel u d (lineAt d pos) st).2.1 =
            (processLine (some s2) m' sel u d (lineAt d pos) st).2.1 :=
          congrArg Prod.fst hrest
        have hst : (processLine (some s1) m sel u d (lineAt d pos) st).2.2.1 =
            (processLine (some s2) m' sel u d (lineAt d pos) st).2.2.1 := by
          have := congrArg Prod.snd hrest
          exact congrArg Prod.fst this
        have hmsg : (processLine (some s1) m sel u d (lineAt d pos) st).2.2.2 =
            (processLine (some s2) m' sel u d (lineAt d pos) st).2.2.2 := by
          have := congrArg Prod.snd hrest
          exact congrArg Prod.snd this
        have hih := ih ((processLine (some s1) m sel u d (lineAt d pos) st).2.1)
          rto ((processLine (some s1) m sel u d (lineAt d pos) st).2.2.1)
        rw [← hnext, ← hst]
        have hihd := congrArg Prod.fst hih
        have hihr := congrArg Prod.snd hih
        simp only [stripPair] at hihd hihr
        simp only [stripPair, List.map_append]
        rw [hdec, hmsg, hihd, hihr]

/-- The whole builder: equal stripped decorations (and state/messages)
under two settings agreeing on security. -/
theorem strip_buildDecorations (s1 s2 : QSettings) (hsec : s1.security = s2.security)
    (sel : Sel) (u : String) (d : Doc) (ranges : List (Nat × Nat)) (st : ResourceState) :
    stripBuild (buildDecorations (some s1) sel u d ranges st) =
      stripBuild (buildDecorations (some s2) sel u d ranges st) := by
  suffices h : ∀ (rs : List (Nat × Nat)) (a1 a2 : BuildOut), stripBuild a1 = stripBuild a2 →
      stripBuild (rs.foldl (fun acc r =>
        let out := rangeLoop (some s1) s1.syntaxVisibility sel u d (r.2 + 2) r.1 r.2 acc.rstate
        ⟨acc.decos ++ out.1, out.2.1, acc.msgs ++ out.2.2⟩) a1) =
      stripBuild (rs.foldl (fun acc r =>
        let out := rangeLoop (some s2) s2.syntaxVisibility sel u d (r.2 + 2) r.1 r.2 acc.rstate
        ⟨acc.decos ++ out.1, out.2.1, acc.msgs ++ out.2.2⟩) a2) by
    exact h ranges ⟨[], st, []⟩ ⟨[], st, []⟩ rfl
  intro rs
  induction rs with
  | nil => intro a1 a2 h; exact h
  | cons r rest ih =>
    intro a1 a2 h
    simp only [List.foldl_cons]
    apply ih
    have hdec : a1.decos.map stripDeco = a2.decos.map stripDeco :=
      congrArg BuildOut.decos h
    have hrst := congrArg BuildOut.rstate h
    have hmsg := congrArg BuildOut.msgs h
    simp only [stripBuild] at hrst hmsg
    have hloop := strip_rangeLoop s1 s2 hsec s1.syntaxVisibility s2.syntaxVisibility
      sel u d (r.2 + 2) r.1 r.2 a1.rstate
    have hld := congrArg Prod.fst hloop
    have hlr := congrArg Prod.snd hloop
    simp only [stripPair] at hld hlr
    have hlst : (rangeLoop (some s1) s1.syntaxVisibility sel u d (r.2 + 2) r.1 r.2 a1.rstate).2.1 =
        (rangeLoop (some s2) s2.syntaxVisibility sel u d (r.2 + 2) r.1 r.2 a1.rstate).2.1 :=
      congrArg Prod.fst hlr
    have hlmsg : (rangeLoop (some s1) s1.syntaxVisibility sel u d (r.2 + 2) r.1 r.2 a1.rstate).2.2 =
        (rangeLoop (some s2) s2.syntaxVisibility sel u d (r.2 + 2) r.1 r.2 a1.rstate).2.2 :=
      congrArg Prod.snd hlr
    simp only [stripBuild, List.map_append]
    rw [← hrst]
    rw [hdec, hmsg, hld, hlst, hlmsg]

/-- C8: the decoration set the builder produces is identical across the
syntax-visibility modes up to dimming mark classes — two runs over the same
document, selection, viewport ranges and resource state, with settings
differing only in `syntaxVisibility`, produce the same class-stripped
decoration list, and in particular exactly the same replace and widget
decorations. -/
theorem buildDecorations_mode_noninterference (s1 s2 : QSettings)
    (hsec : s1.security = s2.security) (sel : Sel) (u : String) (d : Doc)
    (ranges : List (Nat × Nat)) (st : ResourceState) :
    (buildDecorations (some s1) sel u d ranges st).decos.map stripDeco =
        (buildDecorations (some s2) sel u d ranges st).decos.map stripDeco
    ∧ replaceWidgetDecos (buildDecorations (some s1) sel u d ranges st).decos =
        replaceWidgetDecos (buildDecorations (some s2) sel u d ranges st).decos := by
  have h := strip_buildDecorations s1 s2 hsec sel u d ranges st
  have hdec : (buildDecorations (some s1) sel u d ranges st).decos.map stripDeco =
      (buildDecorations (some s2) sel u d ranges st).decos.map stripDeco :=
    congrArg BuildOut.decos h
  exact ⟨hdec, strip_eq_filter_rw _ _ hdec⟩

/-- Witness for `buildDecorations_mode_noninterference`: "always" versus
"minimal" mode on a document combining a task item and an inline-code span,
cursor away — same replace/widget decorations. -/
theorem buildDecorations_mode_noninterference_witness :
    replaceWidgetDecos (buildDecorations (some ⟨Mode.always, ⟨false⟩⟩) ⟨14, 14⟩ "doc"
        [String.data ("- [x] a"), String.data ("`c`")] [(0, 11)] ⟨[], [], 0⟩).decos =
      replaceWidgetDecos (buildDecorations (some ⟨Mode.minimal, ⟨false⟩⟩) ⟨14, 14⟩ "doc"
        [String.data ("- [x] a"), String.data ("`c`")] [(0, 11)] ⟨[], [], 0⟩).decos :=
  (buildDecorations_mode_noninterference ⟨Mode.always, ⟨false⟩⟩ ⟨Mode.minimal, ⟨false⟩⟩
    rfl ⟨14, 14⟩ "doc" [String.data ("- [x] a"), String.data ("`c`")]
    [(0, 11)] ⟨[], [], 0⟩).2

end Quench
